import Mathlib

/-!
Typewriter editor: the buffer state machine of `TypewriterEditor.js`.

A shallow embedding of the keystroke handlers of
`client/src/components/TypewriterEditor.js` (`handleCharacter`,
`handleBackspace`, `handleEnter`, `animateLineBreak`, `updateContent`) and of
the content-loading effect, followed by theorems about them.

Modelling conventions.

* A JavaScript string is the list of its code units (`Str`).
* The React state of the component is one record (`State`); a handler is a
  function from the state before the event to the state after the batched
  updates have been applied, together with the payload passed to
  `onContentChange`, if any.
* `lines` is a dense array of strings and the cursor coordinates are natural
  numbers.  Where the JavaScript would throw, or would leave that state space
  (a sparse array, a negative row), the handler returns a `Fault`.
* A pending `setTimeout` callback of `animateLineBreak` is recorded in
  `State.timers` with the target offset it will install.
-/

namespace TypewriterEditor

/-- A JavaScript string, as the list of its code units. -/
abbrev Str := List Char

/-- Fixed width of the typewriter paper, in characters. -/
def CHARS_PER_LINE : Nat := 38

/-- Approximate character width in pixels. -/
def CHAR_WIDTH : Int := 15

/-- The line separator of the flattened content. -/
def NEWLINE : Char := '\n'

/-- The value of `currentPosition`. -/
structure Position where
  line : Nat
  char : Nat
  deriving DecidableEq, Repr

/-- The component state that the handlers read and write. -/
structure State where
  /-- The `lines` state variable. -/
  lines : List Str
  /-- The `currentPosition` state variable. -/
  currentPosition : Position
  /-- The `paperOffset` state variable. -/
  paperOffset : Int
  /-- The `isAnimating` state variable. -/
  isAnimating : Bool
  /-- Target offsets of the pending `animateLineBreak` timeouts, oldest first. -/
  timers : List Int
  /-- The value of `lastContentRef.current`. -/
  lastContent : Str
  deriving DecidableEq, Repr

/-- Ways in which a handler leaves the modelled state space. -/
inductive Fault where
  /-- A property of `undefined` is read: JavaScript throws a `TypeError`. -/
  | typeError
  /-- An assignment past the end of `lines` would leave holes in the array. -/
  | sparseArray
  /-- The cursor row would become `-1`. -/
  | negativeLine
  deriving DecidableEq, Repr

/-- The result of a handler: the next state and the `onContentChange` payload. -/
inductive Outcome where
  | ok (state : State) (emitted : Option Str)
  | fault (f : Fault)
  deriving DecidableEq, Repr

/-- The state of a freshly mounted editor: `useState([""])`, cursor `(0,0)`. -/
def initialState : State :=
  { lines := [[]], currentPosition := ⟨0, 0⟩, paperOffset := 0,
    isAnimating := false, timers := [], lastContent := [] }

/-! ## JavaScript built-ins used by the handlers -/

/-- `String.prototype.split` with a one-character separator. -/
def split (sep : Char) : Str → List Str
  | [] => [[]]
  | c :: cs =>
    if c = sep then [] :: split sep cs
    else
      match split sep cs with
      | [] => [[c]]
      | l :: ls => (c :: l) :: ls

/-- `Array.prototype.join` on an array of strings. -/
def join (sep : Str) : List Str → Str
  | [] => []
  | [l] => l
  | l :: l2 :: ls => l ++ sep ++ join sep (l2 :: ls)

/-- The flattened content: `newLines.join("\n")`. -/
def flatten (ls : List Str) : Str := join [NEWLINE] ls

/-- The value of `arr[i] || ""`: a missing element reads as the empty string. -/
def lineOrEmpty (ls : List Str) (i : Nat) : Str := ls.getD i []

/-- The assignment `arr[i] = v` on a dense array: in range it overwrites, at
`i = arr.length` it appends, further out it would create holes. -/
def setLine (ls : List Str) (i : Nat) (v : Str) : Except Fault (List Str) :=
  if i < ls.length then .ok (ls.set i v)
  else if i = ls.length then .ok (ls ++ [v])
  else .error .sparseArray

/-- The call `arr.splice(start, 0, v)`; `start` is clamped to the length. -/
def spliceInsert (ls : List Str) (start : Nat) (v : Str) : List Str :=
  ls.take start ++ v :: ls.drop start

/-- The call `arr.splice(start, 1)`; past the end it removes nothing. -/
def spliceRemove (ls : List Str) (start : Nat) : List Str :=
  ls.take start ++ ls.drop (start + 1)

/-- The code units of the string that `undefined` converts to. -/
def undefinedText : Str := "undefined".toList

/-! ## The component -/

/-- The helper `getLastLineCharCount`. -/
def getLastLineCharCount (someLines : List Str) : Nat :=
  match someLines.getLast? with
  | none => 0
  | some last => last.length

/-- The helper `updateContent`: remember the flattened content and emit it. -/
def updateContent (s : State) (newLines : List Str) : Outcome :=
  .ok { s with lastContent := flatten newLines } (some (flatten newLines))

/-- The helper `animateLineBreak`: set the animating flag, overshoot by one
character width and schedule the timeout that installs `targetOffset`. -/
def animateLineBreak (s : State) (targetOffset : Int) : State :=
  { s with isAnimating := true,
           paperOffset := s.paperOffset - CHAR_WIDTH,
           timers := s.timers ++ [targetOffset] }

/-- The timeout callback of `animateLineBreak`, for the oldest pending timer. -/
def timerFires (s : State) : State :=
  match s.timers with
  | [] => s
  | targetOffset :: rest =>
    { s with paperOffset := targetOffset, isAnimating := false, timers := rest }

/-- The handler `handleCharacter`. -/
def handleCharacter (maxLines : Nat) (s : State) (char : Char) : Outcome :=
  let line := s.currentPosition.line
  let charPos := s.currentPosition.char
  let newLines := s.lines
  if charPos ≥ CHARS_PER_LINE then
    if newLines.length ≥ maxLines then
      .ok s none
    else
      match setLine newLines line (lineOrEmpty newLines line ++ [char]) with
      | .error f => .fault f
      | .ok newLines =>
        let newLines := spliceInsert newLines (line + 1) []
        let s := { s with currentPosition := ⟨line + 1, 0⟩ }
        let targetOffset := -(getLastLineCharCount newLines : Int) * CHAR_WIDTH
        let s := animateLineBreak s targetOffset
        updateContent { s with lines := newLines } newLines
  else
    let current := lineOrEmpty newLines line
    let before := current.take charPos
    let after := current.drop charPos
    match setLine newLines line (before ++ char :: after) with
    | .error f => .fault f
    | .ok newLines =>
      let s := { s with paperOffset := -(getLastLineCharCount newLines : Int) * CHAR_WIDTH }
      let s := { s with currentPosition := ⟨line, charPos + 1⟩ }
      updateContent { s with lines := newLines } newLines

/-- The handler `handleBackspace`. -/
def handleBackspace (s : State) : Outcome :=
  let line := s.currentPosition.line
  let charPos := s.currentPosition.char
  if charPos = 0 ∧ line = 0 then
    .ok s none
  else
    let newLines := s.lines
    if charPos = 0 then
      match newLines.get? (line - 1) with
      | none => .fault .typeError
      | some previous =>
        let prevLineLength := previous.length
        let newLines := newLines.set (line - 1) (previous ++ (newLines.get? line).getD undefinedText)
        let newLines := spliceRemove newLines line
        let s := { s with currentPosition := ⟨line - 1, prevLineLength⟩ }
        let s := { s with paperOffset := -(getLastLineCharCount newLines : Int) * CHAR_WIDTH }
        updateContent { s with lines := newLines } newLines
    else
      match newLines.get? line with
      | none => .fault .typeError
      | some current =>
        let newLines := newLines.set line (current.take (charPos - 1) ++ current.drop charPos)
        let s := { s with paperOffset := -(getLastLineCharCount newLines : Int) * CHAR_WIDTH }
        let s := { s with currentPosition := ⟨line, charPos - 1⟩ }
        updateContent { s with lines := newLines } newLines

/-- The handler `handleEnter`. -/
def handleEnter (maxLines : Nat) (s : State) : Outcome :=
  let line := s.currentPosition.line
  let newLines := s.lines
  let currentLine := lineOrEmpty newLines line
  let before := currentLine.take s.currentPosition.char
  let after := currentLine.drop s.currentPosition.char
  if newLines.length ≥ maxLines then
    .ok { s with currentPosition := ⟨line, before.length⟩ } none
  else
    match setLine newLines line before with
    | .error f => .fault f
    | .ok newLines =>
      let newLines := spliceInsert newLines (line + 1) after
      let targetOffset := -(getLastLineCharCount newLines : Int) * CHAR_WIDTH
      let s := animateLineBreak s targetOffset
      let s := { s with currentPosition := ⟨line + 1, 0⟩ }
      updateContent { s with lines := newLines } newLines

/-- The body of the content effect, run when `content` differs from
`lastContentRef.current`: replace the buffer by the lines of `content`, cut to
`maxLines`, and put the cursor at the end.  The paper offset is computed from
the lines of the untruncated `content`.  With `maxLines = 0` the cut leaves no
line and the source sets the cursor row to `-1`: the `negativeLine` fault. -/
def load (maxLines : Nat) (s : State) (content : Str) : Outcome :=
  let lastLineLength := if content = [] then 0 else getLastLineCharCount (split NEWLINE content)
  let totalChars := if content = [] then 0 else ((split NEWLINE content).map List.length).sum
  let paperOffset : Int := if totalChars = 0 then 0 else -(lastLineLength : Int) * (CHAR_WIDTH - 25)
  if content ≠ [] then
    let contentLines := split NEWLINE content
    let truncated := decide (contentLines.length > maxLines)
    let contentLines := if truncated then contentLines.take maxLines else contentLines
    let lastContent := if truncated then flatten contentLines else content
    let emitted := if truncated then some (flatten contentLines) else none
    match contentLines.getLast? with
    | none => .fault .negativeLine
    | some last =>
      .ok { s with lastContent := lastContent, lines := contentLines,
                   currentPosition := ⟨contentLines.length - 1, last.length⟩,
                   paperOffset := paperOffset } emitted
  else
    .ok { s with lastContent := content, lines := [[]], currentPosition := ⟨0, 0⟩,
                 paperOffset := paperOffset } none

/-- The content effect with its guard: nothing happens when the `content`
property equals `lastContentRef.current`. -/
def contentEffect (maxLines : Nat) (s : State) (content : Str) : Outcome :=
  if content ≠ s.lastContent then load maxLines s content else .ok s none

/-! ## Keyboard events -/

/-- The fields of a `keydown` event that `handleKeyDown` reads. -/
structure KeyEvent where
  /-- The `key` property, as a string. -/
  key : Str
  ctrlKey : Bool
  metaKey : Bool
  altKey : Bool
  deriving DecidableEq, Repr

/-- The keys that `handleKeyDown` swallows before any other test. -/
def navigationKeys : List Str :=
  ["ArrowUp".toList, "ArrowDown".toList, "ArrowLeft".toList, "ArrowRight".toList,
    "Home".toList, "End".toList]

/-- The handler `handleKeyDown`, with the `isReady` property as an argument.
The call `e.preventDefault()` acts on the event only and is left out. -/
def handleKeyDown (maxLines : Nat) (isReady : Bool) (s : State) (e : KeyEvent) : Outcome :=
  if !isReady then
    .ok s none
  else if e.key ∈ navigationKeys then
    .ok s none
  else if e.key = "Backspace".toList then
    handleBackspace s
  else if e.key = "Enter".toList then
    handleEnter maxLines s
  else
    match e.key with
    | [c] =>
      if !e.ctrlKey && !e.metaKey && !e.altKey then handleCharacter maxLines s c
      else .ok s none
    | _ => .ok s none

/-! ## Runs -/

/-- The operations of the buffer.  `load` is the body of the content effect;
the guarded effect `contentEffect` either does nothing or is this operation. -/
inductive Op where
  | load (content : Str)
  | insertChar (c : Char)
  | backspace
  | enter
  deriving DecidableEq, Repr

/-- One operation applied to a state. -/
def step (maxLines : Nat) (s : State) : Op → Outcome
  | .load content => load maxLines s content
  | .insertChar c => handleCharacter maxLines s c
  | .backspace => handleBackspace s
  | .enter => handleEnter maxLines s

/-- The result of a run: the final state and the payload of each operation. -/
inductive Trace where
  | ok (state : State) (emitted : List (Option Str))
  | fault (f : Fault)
  deriving DecidableEq, Repr

/-- A sequence of operations applied one after the other, each on the state
the previous one left; a fault stops the run. -/
def run (maxLines : Nat) (s : State) : List Op → Trace
  | [] => .ok s []
  | op :: ops =>
    match step maxLines s op with
    | .fault f => .fault f
    | .ok s1 e =>
      match run maxLines s1 ops with
      | .fault f => .fault f
      | .ok s2 es => .ok s2 (e :: es)

/-! ## State predicates -/

/-- The cursor references an existing line and a column within that line. -/
def ValidCursor (s : State) : Prop :=
  s.currentPosition.line < s.lines.length ∧
    s.currentPosition.char ≤ (lineOrEmpty s.lines s.currentPosition.line).length

instance (s : State) : Decidable (ValidCursor s) := by
  unfold ValidCursor; infer_instance

/-- The buffer invariant: between one and `maxLines` lines and a valid cursor. -/
def Invariant (maxLines : Nat) (s : State) : Prop :=
  1 ≤ s.lines.length ∧ s.lines.length ≤ maxLines ∧ ValidCursor s

instance (maxLines : Nat) (s : State) : Decidable (Invariant maxLines s) := by
  unfold Invariant; infer_instance

/-- The cursor sits at the end of the last line `last`, which follows `pre`. -/
def AtEnd (s : State) (pre : List Str) (last : Str) : Prop :=
  s.lines = pre ++ [last] ∧ s.currentPosition = ⟨pre.length, last.length⟩

/-! ## Typing a text -/

/-- The typed characters in order, with a newline immediately after every
character whose position in the typed text, counted from `done + 1`, is a
multiple of `CHARS_PER_LINE + 1`. -/
def withForcedBreaksFrom (done : Nat) : Str → Str
  | [] => []
  | c :: cs =>
    if (done + 1) % (CHARS_PER_LINE + 1) = 0 then
      c :: NEWLINE :: withForcedBreaksFrom (done + 1) cs
    else c :: withForcedBreaksFrom (done + 1) cs

/-- The typed characters in order, with a newline immediately after every
`(CHARS_PER_LINE + 1)`-th character and nowhere else. -/
def withForcedBreaks (typed : Str) : Str := withForcedBreaksFrom 0 typed

/-- Every operation of the run emitted a content-changed payload. -/
def allEmitted : Trace → Bool
  | .ok _ es => es.all Option.isSome
  | .fault _ => false

/-! ## Edits and timers -/

/-- The events of an editing session: the three edits and the firing of the
oldest pending `animateLineBreak` timeout. -/
inductive Tick where
  | insertChar (c : Char)
  | backspace
  | enter
  | timer
  deriving DecidableEq, Repr

/-- One event applied to a state. -/
def tick (maxLines : Nat) (s : State) : Tick → Outcome
  | .insertChar c => handleCharacter maxLines s c
  | .backspace => handleBackspace s
  | .enter => handleEnter maxLines s
  | .timer => .ok (timerFires s) none

/-- A sequence of events applied one after the other; a fault stops the run. -/
def play (maxLines : Nat) (s : State) : List Tick → Trace
  | [] => .ok s []
  | t :: ts =>
    match tick maxLines s t with
    | .fault f => .fault f
    | .ok s1 e =>
      match play maxLines s1 ts with
      | .fault f => .fault f
      | .ok s2 es => .ok s2 (e :: es)

/-- The event is an edit that writes the carriage offset directly: an
insertChar left of the right edge, or a backspace away from `(0,0)`. -/
def setsOffsetDirectly (s : State) : Tick → Bool
  | .insertChar _ => decide (s.currentPosition.char < CHARS_PER_LINE)
  | .backspace => decide (s.currentPosition ≠ ⟨0, 0⟩)
  | .enter => false
  | .timer => false

/-- No edit that writes the carriage offset directly is made while a timer is
pending, all along the run. -/
def noDirectWriteWhilePending (maxLines : Nat) (s : State) : List Tick → Bool
  | [] => true
  | t :: ts =>
    (!setsOffsetDirectly s t || decide (s.timers = [])) &&
      match tick maxLines s t with
      | .fault _ => false
      | .ok s1 _ => noDirectWriteWhilePending maxLines s1 ts

/-- The carriage offset is settled on the final line, or else the newest
pending timer carries the target that settles it. -/
def OffsetSettles (s : State) : Prop :=
  (s.timers = [] → s.paperOffset = -(getLastLineCharCount s.lines : Int) * CHAR_WIDTH) ∧
  (∀ t : Int, s.timers.getLast? = some t →
    t = -(getLastLineCharCount s.lines : Int) * CHAR_WIDTH)

/-! ## Capacity -/

/-- The number of characters the claim says a document takes:
`(maxLines - 1) * (charsPerLine + 1) + charsPerLine`. -/
def capacity (maxLines : Nat) : Nat :=
  (maxLines - 1) * (CHARS_PER_LINE + 1) + CHARS_PER_LINE

/-! ## The document routes of the server -/

namespace Server

/-- The HTTP methods the server registers routes for. -/
inductive Method where
  | get
  | post
  | put
  | delete
  deriving DecidableEq, Repr

/-- One segment of a route path: literal text, or a named parameter `:name`. -/
inductive Segment where
  | lit (text : Str)
  | param (name : Str)
  deriving DecidableEq, Repr

/-- The route handlers of `server/index.js`, named after the comment above
each registration. -/
inductive Handler where
  | register
  | login
  | verifyToken
  | saveDocument
  | updateDocument
  | getAllDocuments
  | getDocumentById
  | getLatestDocument
  | deleteDocument
  | clearAllDocuments
  | healthCheck
  deriving DecidableEq, Repr

/-- One `app.METHOD(path, ...)` registration. -/
structure Route where
  method : Method
  pattern : List Segment
  handler : Handler
  deriving DecidableEq, Repr

/-- The `app.METHOD` registrations of `server/index.js`, in source order. -/
def routes : List Route :=
  [ ⟨.post, [.lit "api".toList, .lit "auth".toList, .lit "register".toList], .register⟩,
    ⟨.post, [.lit "api".toList, .lit "auth".toList, .lit "login".toList], .login⟩,
    ⟨.get, [.lit "api".toList, .lit "auth".toList, .lit "verify".toList], .verifyToken⟩,
    ⟨.post, [.lit "api".toList, .lit "documents".toList], .saveDocument⟩,
    ⟨.put, [.lit "api".toList, .lit "documents".toList, .param "id".toList], .updateDocument⟩,
    ⟨.get, [.lit "api".toList, .lit "documents".toList], .getAllDocuments⟩,
    ⟨.get, [.lit "api".toList, .lit "documents".toList, .param "id".toList], .getDocumentById⟩,
    ⟨.get, [.lit "api".toList, .lit "documents".toList, .lit "latest".toList],
      .getLatestDocument⟩,
    ⟨.delete, [.lit "api".toList, .lit "documents".toList, .param "id".toList],
      .deleteDocument⟩,
    ⟨.delete, [.lit "api".toList, .lit "documents".toList], .clearAllDocuments⟩,
    ⟨.get, [.lit "api".toList, .lit "health".toList], .healthCheck⟩ ]

/-- The segments of a request path: the text between the slashes. -/
def pathSegments (path : Str) : List Str :=
  (split '/' path).filter fun seg => decide (seg ≠ [])

/-- A route pattern matched against the segments of a path: literal segments
must be equal, a parameter takes any one segment; the result is the
parameters, `req.params`. -/
def matchPattern : List Segment → List Str → Option (List (Str × Str))
  | [], [] => some []
  | .lit text :: ps, seg :: segs => if text = seg then matchPattern ps segs else none
  | .param name :: ps, seg :: segs =>
    match matchPattern ps segs with
    | none => none
    | some params => some ((name, seg) :: params)
  | _, _ => none

/-- The first registered route that matches the request, with its parameters.
Each handler ends the response, so no later route is tried. -/
def dispatch (method : Method) (path : Str) : Option (Handler × List (Str × Str)) :=
  routes.findSome? fun r =>
    if r.method = method then
      match matchPattern r.pattern (pathSegments path) with
      | none => none
      | some params => some (r.handler, params)
    else none

/-- A row of the `documents` table, as the two read queries select it. -/
structure Document where
  id : Nat
  name : Str
  content : Str
  deriving DecidableEq, Repr

/-- The two read queries on the `documents` table; the database is outside
the repository.  `byId id userId` is `WHERE id = ? AND user_id = ?` with the
route parameter as text, `latest userId` is
`WHERE user_id = ? ORDER BY updated_at DESC LIMIT 1`. -/
structure Store where
  byId : Str → Nat → Option Document
  latest : Nat → Option Document

/-- The responses of the two read handlers. -/
inductive Response where
  /-- The call `res.json(row)`. -/
  | document (row : Document)
  /-- The placeholder `{ id: null, name: "", content: "", ... }`. -/
  | emptyPlaceholder
  /-- Status 404 with `{ error: "Document not found" }`. -/
  | notFound
  deriving DecidableEq, Repr

/-- The handler of `GET /api/documents/:id` for an authenticated user. -/
def getDocumentById (store : Store) (userId : Nat) (id : Str) : Response :=
  match store.byId id userId with
  | none => .notFound
  | some row => .document row

/-- The handler of `GET /api/documents/latest` for an authenticated user. -/
def getLatestDocument (store : Store) (userId : Nat) : Response :=
  match store.latest userId with
  | none => .emptyPlaceholder
  | some row => .document row

/-- The response to a read request of an authenticated user; `none` for the
routes whose handlers are not modelled and for paths no route matches. -/
def respond (store : Store) (userId : Nat) (method : Method) (path : Str) : Option Response :=
  match dispatch method path with
  | some (.getDocumentById, params) =>
    match params.lookup "id".toList with
    | none => none
    | some id => some (getDocumentById store userId id)
  | some (.getLatestDocument, _) => some (getLatestDocument store userId)
  | _ => none

end Server

/-! ## Lists -/

theorem setLine_of_lt (ls : List Str) (i : Nat) (v : Str) (h : i < ls.length) :
    setLine ls i v = .ok (ls.set i v) := by
  simp [setLine, h]

theorem lineOrEmpty_set_self (ls : List Str) (i : Nat) (v : Str) (h : i < ls.length) :
    lineOrEmpty (ls.set i v) i = v := by
  simp [lineOrEmpty, List.getD_eq_getElem?_getD, h]

theorem length_spliceInsert (ls : List Str) (k : Nat) (v : Str) :
    (spliceInsert ls k v).length = ls.length + 1 := by
  simp only [spliceInsert, List.length_append, List.length_cons, List.length_take,
    List.length_drop]
  omega

theorem length_spliceRemove (ls : List Str) (k : Nat) (h : k < ls.length) :
    (spliceRemove ls k).length = ls.length - 1 := by
  simp only [spliceRemove, List.length_append, List.length_take, List.length_drop]
  omega

theorem lineOrEmpty_spliceRemove_lt (ls : List Str) (k i : Nat) (h : i < k) :
    lineOrEmpty (spliceRemove ls k) i = lineOrEmpty ls i := by
  simp only [lineOrEmpty, spliceRemove, List.getD_eq_getElem?_getD]
  by_cases hk : i < ls.length
  · rw [List.getElem?_append_left (by simp; omega)]
    simp [List.getElem?_take, h]
  · have h1 : ls.take k = ls := List.take_of_length_le (by omega)
    have h2 : ls.drop (k + 1) = [] := List.drop_of_length_le (by omega)
    simp [h1, h2]

theorem lineOrEmpty_of_getLast (ls : List Str) (last : Str) (h : ls.getLast? = some last) :
    lineOrEmpty ls (ls.length - 1) = last := by
  rw [List.getLast?_eq_getElem?] at h
  simp [lineOrEmpty, List.getD_eq_getElem?_getD, h]

theorem split_ne_nil (sep : Char) (s : Str) : split sep s ≠ [] := by
  induction s with
  | nil => simp [split]
  | cons c cs ih =>
    unfold split
    split
    · simp
    · split <;> simp

theorem length_split_pos (sep : Char) (s : Str) : 1 ≤ (split sep s).length := by
  have h := split_ne_nil sep s
  cases hs : split sep s with
  | nil => exact absurd hs h
  | cons a l => simp


/-! ## The invariant is preserved by every operation -/

theorem load_invariant (maxLines : Nat) (hm : 1 ≤ maxLines) (s : State) (content : Str) :
    ∃ s1 e, load maxLines s content = .ok s1 e ∧ Invariant maxLines s1 := by
  unfold load
  by_cases hc : content = []
  · simp [hc, Invariant, ValidCursor, lineOrEmpty, hm]
  · simp only [ne_eq, hc, not_false_eq_true, if_true]
    have hpos := length_split_pos NEWLINE content
    by_cases ht : (split NEWLINE content).length > maxLines
    · simp only [ht, decide_True, if_true]
      have hlen : ((split NEWLINE content).take maxLines).length = maxLines := by
        simp only [List.length_take]; omega
      cases hl : ((split NEWLINE content).take maxLines).getLast? with
      | none =>
        rw [List.getLast?_eq_none_iff] at hl
        rw [hl] at hlen
        simp at hlen
        omega
      | some last =>
        refine ⟨_, _, rfl, ?_, ?_, ?_, ?_⟩
        · simp only [hlen]; exact hm
        · simp only [hlen]; exact le_refl _
        · simp only [hlen]; omega
        · simp only [lineOrEmpty_of_getLast _ _ hl]; exact le_refl _
    · simp only [ht, decide_False, if_false, Bool.false_eq_true]
      cases hl : (split NEWLINE content).getLast? with
      | none =>
        rw [List.getLast?_eq_none_iff] at hl
        exact absurd hl (split_ne_nil _ _)
      | some last =>
        refine ⟨_, _, rfl, ?_, ?_, ?_, ?_⟩
        · exact hpos
        · simp only; omega
        · simp only; omega
        · simp only [lineOrEmpty_of_getLast _ _ hl]; exact le_refl _

theorem handleCharacter_invariant (maxLines : Nat) (s : State) (c : Char)
    (h : Invariant maxLines s) :
    ∃ s1 e, handleCharacter maxLines s c = .ok s1 e ∧ Invariant maxLines s1 := by
  obtain ⟨h1, h2, hl, hch⟩ := h
  unfold handleCharacter
  by_cases hc : s.currentPosition.char ≥ CHARS_PER_LINE
  · by_cases hfull : s.lines.length ≥ maxLines
    · simp only [hc, hfull, if_true]
      exact ⟨_, _, rfl, h1, h2, hl, hch⟩
    · simp only [hc, hfull, if_true, if_false, setLine_of_lt _ _ _ hl, updateContent,
        animateLineBreak]
      refine ⟨_, _, rfl, ?_, ?_, ?_, ?_⟩
      · simp only [length_spliceInsert]; omega
      · simp only [length_spliceInsert, List.length_set]; omega
      · simp only [length_spliceInsert, List.length_set]; omega
      · exact Nat.zero_le _
  · simp only [hc, if_false, setLine_of_lt _ _ _ hl, updateContent]
    refine ⟨_, _, rfl, ?_, ?_, ?_, ?_⟩
    · simp only [List.length_set]; exact h1
    · simp only [List.length_set]; exact h2
    · simp only [List.length_set]; exact hl
    · simp only [lineOrEmpty_set_self _ _ _ hl, List.length_append, List.length_cons,
        List.length_take, List.length_drop]
      omega

theorem handleBackspace_invariant (maxLines : Nat) (s : State)
    (h : Invariant maxLines s) :
    ∃ s1 e, handleBackspace s = .ok s1 e ∧ Invariant maxLines s1 := by
  obtain ⟨h1, h2, hl, hch⟩ := h
  unfold handleBackspace
  by_cases h0 : s.currentPosition.char = 0 ∧ s.currentPosition.line = 0
  · simp only [h0, and_self, if_true]
    exact ⟨_, _, rfl, h1, h2, hl, hch⟩
  · simp only [h0, if_false]
    by_cases hc : s.currentPosition.char = 0
    · have hline : 0 < s.currentPosition.line := by
        rcases Nat.eq_zero_or_pos s.currentPosition.line with hz | hp
        · exact absurd ⟨hc, hz⟩ h0
        · exact hp
      have hprev : s.currentPosition.line - 1 < s.lines.length := by omega
      simp only [hc, if_true, List.get?_eq_getElem?, List.getElem?_eq_getElem hprev,
        updateContent]
      have hlen : ∀ v : Str, (spliceRemove (s.lines.set (s.currentPosition.line - 1) v)
          s.currentPosition.line).length = s.lines.length - 1 := by
        intro v
        rw [length_spliceRemove _ _ (by simpa using hl), List.length_set]
      refine ⟨_, _, rfl, ?_, ?_, ?_, ?_⟩
      · simp only [hlen]; omega
      · simp only [hlen]; omega
      · simp only [hlen]; omega
      · simp only [lineOrEmpty_spliceRemove_lt _ _ _ (show s.currentPosition.line - 1 <
          s.currentPosition.line by omega), lineOrEmpty_set_self _ _ _ hprev,
          List.length_append]
        omega
    · simp only [hc, if_false, List.get?_eq_getElem?, List.getElem?_eq_getElem hl,
        updateContent]
      refine ⟨_, _, rfl, ?_, ?_, ?_, ?_⟩
      · simp only [List.length_set]; exact h1
      · simp only [List.length_set]; exact h2
      · simp only [List.length_set]; exact hl
      · have hcur : lineOrEmpty s.lines s.currentPosition.line = s.lines[s.currentPosition.line] := by
          simp [lineOrEmpty, List.getD_eq_getElem?_getD, hl]
        rw [hcur] at hch
        simp only [lineOrEmpty_set_self _ _ _ hl, List.length_append, List.length_take,
          List.length_drop]
        omega

theorem handleEnter_invariant (maxLines : Nat) (s : State)
    (h : Invariant maxLines s) :
    ∃ s1 e, handleEnter maxLines s = .ok s1 e ∧ Invariant maxLines s1 := by
  obtain ⟨h1, h2, hl, hch⟩ := h
  unfold handleEnter
  by_cases hfull : s.lines.length ≥ maxLines
  · simp only [hfull, if_true]
    refine ⟨_, _, rfl, h1, h2, hl, ?_⟩
    simp only [List.length_take]
    exact Nat.min_le_right _ _
  · simp only [hfull, if_false, setLine_of_lt _ _ _ hl, updateContent, animateLineBreak]
    refine ⟨_, _, rfl, ?_, ?_, ?_, ?_⟩
    · simp only [length_spliceInsert]; omega
    · simp only [length_spliceInsert, List.length_set]; omega
    · simp only [length_spliceInsert, List.length_set]; omega
    · exact Nat.zero_le _

theorem step_invariant (maxLines : Nat) (hm : 1 ≤ maxLines) (s : State) (op : Op)
    (h : Invariant maxLines s) :
    ∃ s1 e, step maxLines s op = .ok s1 e ∧ Invariant maxLines s1 := by
  cases op with
  | load content => exact load_invariant maxLines hm s content
  | insertChar c => exact handleCharacter_invariant maxLines s c h
  | backspace => exact handleBackspace_invariant maxLines s h
  | enter => exact handleEnter_invariant maxLines s h

theorem run_invariant (maxLines : Nat) (hm : 1 ≤ maxLines) (ops : List Op) :
    ∀ s : State, Invariant maxLines s →
      ∃ s1 es, run maxLines s ops = .ok s1 es ∧ Invariant maxLines s1 := by
  induction ops with
  | nil => intro s h; exact ⟨s, [], rfl, h⟩
  | cons op ops ih =>
    intro s h
    obtain ⟨s1, e, hs, h1⟩ := step_invariant maxLines hm s op h
    obtain ⟨s2, es, hr, h2⟩ := ih s1 h1
    refine ⟨s2, e :: es, ?_, h2⟩
    simp only [run, hs, hr]

theorem initialState_invariant (maxLines : Nat) (hm : 1 ≤ maxLines) :
    Invariant maxLines initialState := by
  refine ⟨?_, ?_, ?_, ?_⟩ <;> simp [initialState, lineOrEmpty]
  omega

/-! ## Splitting and joining -/

theorem split_of_not_mem (sep : Char) (l : Str) (h : sep ∉ l) : split sep l = [l] := by
  induction l with
  | nil => rfl
  | cons c cs ih =>
    have hc : c ≠ sep := fun e => h (by simp [e])
    have hcs : sep ∉ cs := fun e => h (List.mem_cons_of_mem _ e)
    simp [split, hc, ih hcs]

theorem split_append_sep (sep : Char) (l rest : Str) (h : sep ∉ l) :
    split sep (l ++ sep :: rest) = l :: split sep rest := by
  induction l with
  | nil => simp [split]
  | cons c cs ih =>
    have hc : c ≠ sep := fun e => h (by simp [e])
    have hcs : sep ∉ cs := fun e => h (List.mem_cons_of_mem _ e)
    simp [split, hc, ih hcs]

theorem split_flatten (ls : List Str) (hne : ls ≠ []) (hn : ∀ l ∈ ls, NEWLINE ∉ l) :
    split NEWLINE (flatten ls) = ls := by
  induction ls with
  | nil => exact absurd rfl hne
  | cons l rest ih =>
    cases rest with
    | nil =>
      simp only [flatten, join]
      exact split_of_not_mem _ _ (hn l (by simp))
    | cons l2 rest =>
      have ih2 := ih (by simp) (fun x hx => hn x (List.mem_cons_of_mem _ hx))
      simp only [flatten] at ih2 ⊢
      simp only [join, List.append_assoc, List.singleton_append]
      rw [split_append_sep _ _ _ (hn l (by simp)), ih2]

theorem flatten_eq_nil (ls : List Str) (hne : ls ≠ []) (h : flatten ls = []) : ls = [[]] := by
  cases ls with
  | nil => exact absurd rfl hne
  | cons l rest =>
    cases rest with
    | nil => simpa [flatten, join] using h
    | cons l2 rest => simp [flatten, join] at h

/-! ## Loading -/

theorem load_nil (maxLines : Nat) (s : State) :
    load maxLines s [] =
      .ok { s with lastContent := [], lines := [[]], currentPosition := ⟨0, 0⟩,
                   paperOffset := 0 } none := by
  simp [load]

theorem load_fits (maxLines : Nat) (s : State) (content : Str) (hc : content ≠ [])
    (hfit : (split NEWLINE content).length ≤ maxLines) :
    ∃ s1 last, load maxLines s content = .ok s1 none ∧ s1.lines = split NEWLINE content ∧
      (split NEWLINE content).getLast? = some last ∧
      s1.currentPosition = ⟨(split NEWLINE content).length - 1, last.length⟩ := by
  unfold load
  have ht : ¬ (split NEWLINE content).length > maxLines := by omega
  simp only [ne_eq, hc, not_false_eq_true, if_true, ht, decide_False, if_false,
    Bool.false_eq_true]
  cases hl : (split NEWLINE content).getLast? with
  | none =>
    rw [List.getLast?_eq_none_iff] at hl
    exact absurd hl (split_ne_nil _ _)
  | some last => exact ⟨_, last, rfl, rfl, rfl, rfl⟩

theorem load_truncates (maxLines : Nat) (hm : 1 ≤ maxLines) (s : State) (content : Str)
    (hc : content ≠ []) (hbig : maxLines < (split NEWLINE content).length) :
    ∃ s1 last, load maxLines s content =
        .ok s1 (some (flatten ((split NEWLINE content).take maxLines))) ∧
      s1.lines = (split NEWLINE content).take maxLines ∧
      ((split NEWLINE content).take maxLines).getLast? = some last ∧
      s1.currentPosition = ⟨maxLines - 1, last.length⟩ := by
  unfold load
  have ht : (split NEWLINE content).length > maxLines := hbig
  have hlen : ((split NEWLINE content).take maxLines).length = maxLines := by
    simp only [List.length_take]; omega
  simp only [ne_eq, hc, not_false_eq_true, if_true, ht, decide_True]
  cases hl : ((split NEWLINE content).take maxLines).getLast? with
  | none =>
    rw [List.getLast?_eq_none_iff] at hl
    rw [hl] at hlen
    simp at hlen
    omega
  | some last =>
    refine ⟨_, last, rfl, rfl, rfl, ?_⟩
    simp only [hlen]

/-! ## Invariants of the buffer -/

/-- C1. Line-count invariant: with `maxLines ≥ 1`, every sequence of load,
insertChar, backspace and enter applied to the initial buffer `[""]` runs to
completion and leaves `1 ≤ lines.length ≤ maxLines`; and with `maxLines = 16`,
an enter, or an insertChar at or past the right edge, applied to any state
whose buffer has 16 lines emits nothing and leaves `lines.length = 16`. -/
theorem line_count_invariant (maxLines : Nat) (hm : 1 ≤ maxLines) (ops : List Op) :
    (∃ s es, run maxLines initialState ops = .ok s es ∧
      1 ≤ s.lines.length ∧ s.lines.length ≤ maxLines) ∧
    (∀ s0 : State, s0.lines.length = 16 →
      (∃ s1, handleEnter 16 s0 = .ok s1 none ∧ s1.lines.length = 16) ∧
      (∀ c : Char, CHARS_PER_LINE ≤ s0.currentPosition.char →
        ∃ s1, handleCharacter 16 s0 c = .ok s1 none ∧ s1.lines.length = 16)) := by
  constructor
  · obtain ⟨s, es, hr, h1, h2, _⟩ :=
      run_invariant maxLines hm ops initialState (initialState_invariant maxLines hm)
    exact ⟨s, es, hr, h1, h2⟩
  · intro s0 h16
    constructor
    · refine ⟨{ s0 with currentPosition := ⟨s0.currentPosition.line,
        ((lineOrEmpty s0.lines s0.currentPosition.line).take s0.currentPosition.char).length⟩ },
        ?_, h16⟩
      simp [handleEnter, h16]
    · intro c hc
      refine ⟨s0, ?_, h16⟩
      simp [handleCharacter, h16, hc]

/-- Witness for C1: a run that loads two lines, types, breaks and deletes. -/
theorem line_count_invariant_witness :
    1 ≤ 16 ∧
    ((∃ s es, run 16 initialState
        [Op.load ['o', 'n', 'e', '\n', 't', 'w', 'o'], Op.insertChar 'x', Op.enter,
          Op.backspace, Op.backspace] = .ok s es ∧
      1 ≤ s.lines.length ∧ s.lines.length ≤ 16) ∧
    (∀ s0 : State, s0.lines.length = 16 →
      (∃ s1, handleEnter 16 s0 = .ok s1 none ∧ s1.lines.length = 16) ∧
      (∀ c : Char, CHARS_PER_LINE ≤ s0.currentPosition.char →
        ∃ s1, handleCharacter 16 s0 c = .ok s1 none ∧ s1.lines.length = 16))) :=
  ⟨by decide, line_count_invariant 16 (by decide) _⟩

/-- C2. Cursor invariant: with `maxLines ≥ 1`, every sequence of load,
insertChar, backspace and enter applied to the initial state (buffer `[""]`,
cursor `(0,0)`) runs to completion and leaves the cursor on an existing line,
at a column between 0 and the length of that line. -/
theorem cursor_invariant (maxLines : Nat) (hm : 1 ≤ maxLines) (ops : List Op) :
    ∃ s es, run maxLines initialState ops = .ok s es ∧
      s.currentPosition.line < s.lines.length ∧
      ∃ cur, s.lines.get? s.currentPosition.line = some cur ∧
        0 ≤ s.currentPosition.char ∧ s.currentPosition.char ≤ cur.length := by
  obtain ⟨s, es, hr, _, _, hl, hc⟩ :=
    run_invariant maxLines hm ops initialState (initialState_invariant maxLines hm)
  refine ⟨s, es, hr, hl, s.lines[s.currentPosition.line], ?_, Nat.zero_le _, ?_⟩
  · simp [List.getElem?_eq_getElem hl]
  · simpa [lineOrEmpty, List.getD_eq_getElem?_getD, hl] using hc

/-- Witness for C2: a run that types, breaks the line, merges it back and loads. -/
theorem cursor_invariant_witness :
    1 ≤ 3 ∧
    ∃ s es, run 3 initialState
        [Op.insertChar 'a', Op.insertChar 'b', Op.enter, Op.insertChar 'c', Op.backspace,
          Op.backspace, Op.load ['p', '\n', 'q', '\n', 'r', '\n', 's'], Op.enter] = .ok s es ∧
      s.currentPosition.line < s.lines.length ∧
      ∃ cur, s.lines.get? s.currentPosition.line = some cur ∧
        0 ≤ s.currentPosition.char ∧ s.currentPosition.char ≤ cur.length :=
  ⟨by decide, cursor_invariant 3 (by decide) _⟩

/-! ## Loading external content -/

theorem join_cons_head (sep : Str) (c : Char) (l : Str) (ls : List Str) :
    join sep ((c :: l) :: ls) = c :: join sep (l :: ls) := by
  cases ls with
  | nil => rfl
  | cons l2 rest => simp [join]

theorem flatten_split (content : Str) : flatten (split NEWLINE content) = content := by
  induction content with
  | nil => rfl
  | cons c cs ih =>
    unfold split
    by_cases hc : c = NEWLINE
    · simp only [hc, if_true]
      cases hs : split NEWLINE cs with
      | nil => exact absurd hs (split_ne_nil _ _)
      | cons l ls =>
        rw [hs] at ih
        simp only [flatten] at ih ⊢
        simp [join, ih]
    · simp only [hc, if_false]
      cases hs : split NEWLINE cs with
      | nil => exact absurd hs (split_ne_nil _ _)
      | cons l ls =>
        rw [hs] at ih
        simp only [flatten] at ih ⊢
        simp only [join_cons_head, ih]

theorem not_mem_of_mem_split (content : Str) :
    ∀ l ∈ split NEWLINE content, NEWLINE ∉ l := by
  induction content with
  | nil =>
    intro l hl
    simp only [split, List.mem_singleton] at hl
    rw [hl]
    simp
  | cons c cs ih =>
    intro l hl
    unfold split at hl
    by_cases hc : c = NEWLINE
    · simp only [hc, if_true, List.mem_cons] at hl
      rcases hl with hl | hl
      · rw [hl]; simp
      · exact ih l hl
    · simp only [hc, if_false] at hl
      cases hs : split NEWLINE cs with
      | nil => exact absurd hs (split_ne_nil _ _)
      | cons l0 ls =>
        rw [hs] at hl ih
        simp only [List.mem_cons] at hl
        rcases hl with hl | hl
        · rw [hl]
          have h0 := ih l0 (by simp)
          intro hmem
          simp only [List.mem_cons] at hmem
          rcases hmem with hmem | hmem
          · exact hc hmem.symm
          · exact h0 hmem
        · exact ih l (by simp [hl])

/-- C3. Load truncation: for non-empty content and `maxLines ≥ 1`, load
succeeds; the content is split on the newline (the lines hold no newline and
joined by the newline they give back the content); when the split has more
than `maxLines` lines the buffer is exactly the first `maxLines` of them and
the caller receives those lines joined by the newline; otherwise the buffer
is the whole split and nothing is emitted.  A payload is emitted exactly when
the split has more than `maxLines` lines.  In particular twenty lines `a` to
`t` loaded with `maxLines = 16` give the sixteen lines `a` to `p` and the
payload `a\n...\np`, and the sixteen lines `a` to `p` are loaded whole with no
payload. -/
theorem load_truncation (maxLines : Nat) (hm : 1 ≤ maxLines) (s : State) (content : Str)
    (hc : content ≠ []) :
    (∃ s1 e, load maxLines s content = .ok s1 e ∧
      (maxLines < (split NEWLINE content).length →
        s1.lines = (split NEWLINE content).take maxLines ∧ s1.lines.length = maxLines ∧
        e = some (flatten ((split NEWLINE content).take maxLines))) ∧
      (¬ maxLines < (split NEWLINE content).length →
        s1.lines = split NEWLINE content ∧ e = none) ∧
      (e.isSome = true ↔ maxLines < (split NEWLINE content).length)) ∧
    (flatten (split NEWLINE content) = content ∧
      ∀ l ∈ split NEWLINE content, NEWLINE ∉ l) ∧
    (∃ s1, load 16 s
        "a\nb\nc\nd\ne\nf\ng\nh\ni\nj\nk\nl\nm\nn\no\np\nq\nr\ns\nt".toList =
          .ok s1 (some "a\nb\nc\nd\ne\nf\ng\nh\ni\nj\nk\nl\nm\nn\no\np".toList) ∧
      s1.lines =
        [['a'], ['b'], ['c'], ['d'], ['e'], ['f'], ['g'], ['h'], ['i'], ['j'], ['k'], ['l'],
          ['m'], ['n'], ['o'], ['p']] ∧
      s1.lines.length = 16) ∧
    (∃ s1, load 16 s "a\nb\nc\nd\ne\nf\ng\nh\ni\nj\nk\nl\nm\nn\no\np".toList = .ok s1 none ∧
      s1.lines =
        [['a'], ['b'], ['c'], ['d'], ['e'], ['f'], ['g'], ['h'], ['i'], ['j'], ['k'], ['l'],
          ['m'], ['n'], ['o'], ['p']]) := by
  refine ⟨?_, ⟨flatten_split content, not_mem_of_mem_split content⟩, ?_, ?_⟩
  · by_cases hbig : maxLines < (split NEWLINE content).length
    · obtain ⟨s1, last, hl, hlines, _, _⟩ := load_truncates maxLines hm s content hc hbig
      refine ⟨s1, _, hl, ?_, ?_, ?_⟩
      · intro _
        refine ⟨hlines, ?_, rfl⟩
        rw [hlines, List.length_take]
        omega
      · intro h; exact absurd hbig h
      · simp [hbig]
    · obtain ⟨s1, last, hl, hlines, _, _⟩ := load_fits maxLines s content hc (by omega)
      refine ⟨s1, _, hl, ?_, ?_, ?_⟩
      · intro h; exact absurd h hbig
      · intro _; exact ⟨hlines, rfl⟩
      · simp [hbig]
  · have hs : (split NEWLINE
        "a\nb\nc\nd\ne\nf\ng\nh\ni\nj\nk\nl\nm\nn\no\np\nq\nr\ns\nt".toList).take 16 =
        [['a'], ['b'], ['c'], ['d'], ['e'], ['f'], ['g'], ['h'], ['i'], ['j'], ['k'], ['l'],
          ['m'], ['n'], ['o'], ['p']] := by decide
    have hf : flatten
        [['a'], ['b'], ['c'], ['d'], ['e'], ['f'], ['g'], ['h'], ['i'], ['j'], ['k'], ['l'],
          ['m'], ['n'], ['o'], ['p']] =
        "a\nb\nc\nd\ne\nf\ng\nh\ni\nj\nk\nl\nm\nn\no\np".toList := by decide
    obtain ⟨s1, last, hl, hlines, _, _⟩ := load_truncates 16 (by decide) s
      "a\nb\nc\nd\ne\nf\ng\nh\ni\nj\nk\nl\nm\nn\no\np\nq\nr\ns\nt".toList
      (by decide) (by decide)
    rw [hs] at hl hlines
    rw [hf] at hl
    exact ⟨s1, hl, hlines, by rw [hlines]; rfl⟩
  · have hs : split NEWLINE "a\nb\nc\nd\ne\nf\ng\nh\ni\nj\nk\nl\nm\nn\no\np".toList =
        [['a'], ['b'], ['c'], ['d'], ['e'], ['f'], ['g'], ['h'], ['i'], ['j'], ['k'], ['l'],
          ['m'], ['n'], ['o'], ['p']] := by decide
    obtain ⟨s1, last, hl, hlines, _, _⟩ := load_fits 16 s
      "a\nb\nc\nd\ne\nf\ng\nh\ni\nj\nk\nl\nm\nn\no\np".toList (by decide) (by decide)
    rw [hs] at hlines
    exact ⟨s1, hl, hlines⟩

/-- Witness for C3: twenty one-character lines loaded with `maxLines = 16`
are cut to the first sixteen, which are emitted joined by the newline. -/
theorem load_truncation_witness :
    1 ≤ 16 ∧ "a\nb\nc\nd\ne\nf\ng\nh\ni\nj\nk\nl\nm\nn\no\np\nq\nr\ns\nt".toList ≠ [] ∧
    16 < (split NEWLINE
      "a\nb\nc\nd\ne\nf\ng\nh\ni\nj\nk\nl\nm\nn\no\np\nq\nr\ns\nt".toList).length ∧
    ∃ s1, load 16 initialState
        "a\nb\nc\nd\ne\nf\ng\nh\ni\nj\nk\nl\nm\nn\no\np\nq\nr\ns\nt".toList =
          .ok s1 (some "a\nb\nc\nd\ne\nf\ng\nh\ni\nj\nk\nl\nm\nn\no\np".toList) ∧
      s1.lines =
        [['a'], ['b'], ['c'], ['d'], ['e'], ['f'], ['g'], ['h'], ['i'], ['j'], ['k'], ['l'],
          ['m'], ['n'], ['o'], ['p']] ∧
      s1.lines.length = 16 := by
  obtain ⟨_, _, h, _⟩ := load_truncation 16 (by decide) initialState
    "a\nb\nc\nd\ne\nf\ng\nh\ni\nj\nk\nl\nm\nn\no\np\nq\nr\ns\nt".toList (by decide)
  exact ⟨by decide, by decide, by decide, h⟩

/-- C4. Load cursor placement: with `maxLines ≥ 1`, load of any content
succeeds and leaves the cursor on the last buffer line, at the length of that
line; empty content gives the buffer `[""]` with cursor `(0,0)`; and when
`maxLines ≥ 2`, `load("hello\nworld")` gives the lines `["hello","world"]`,
cursor `(1,5)` and no truncation payload. -/
theorem load_cursor_placement (maxLines : Nat) (hm : 1 ≤ maxLines) (s : State) (content : Str) :
    (∃ s1 e last, load maxLines s content = .ok s1 e ∧
      s1.lines.getLast? = some last ∧
      s1.currentPosition = ⟨s1.lines.length - 1, last.length⟩) ∧
    (∃ s1, load maxLines s [] = .ok s1 none ∧ s1.lines = [[]] ∧
      s1.currentPosition = ⟨0, 0⟩) ∧
    (2 ≤ maxLines →
      ∃ s1, load maxLines s "hello\nworld".toList = .ok s1 none ∧
        s1.lines = ["hello".toList, "world".toList] ∧ s1.currentPosition = ⟨1, 5⟩) := by
  refine ⟨?_, ⟨_, load_nil maxLines s, rfl, rfl⟩, ?_⟩
  · by_cases hc : content = []
    · subst hc
      exact ⟨_, _, [], load_nil maxLines s, rfl, rfl⟩
    · by_cases hbig : maxLines < (split NEWLINE content).length
      · obtain ⟨s1, last, hl, hlines, hlast, hpos⟩ :=
          load_truncates maxLines hm s content hc hbig
        refine ⟨s1, _, last, hl, by rw [hlines]; exact hlast, ?_⟩
        rw [hpos, hlines, List.length_take]
        have : min maxLines (split NEWLINE content).length = maxLines := by omega
        rw [this]
      · obtain ⟨s1, last, hl, hlines, hlast, hpos⟩ :=
          load_fits maxLines s content hc (by omega)
        refine ⟨s1, _, last, hl, by rw [hlines]; exact hlast, ?_⟩
        rw [hpos, hlines]
  · intro h2
    have hsplit : split NEWLINE "hello\nworld".toList = ["hello".toList, "world".toList] := by
      decide
    obtain ⟨s1, last, hl, hlines, hlast, hpos⟩ :=
      load_fits maxLines s "hello\nworld".toList (by decide) (by rw [hsplit]; exact h2)
    refine ⟨s1, hl, by rw [hlines, hsplit], ?_⟩
    rw [hsplit] at hlast hpos
    have hw : last = "world".toList := by
      simpa using hlast.symm
    rw [hpos, hw]
    rfl

/-- Witness for C4: the default `maxLines = 16` and a three-line content. -/
theorem load_cursor_placement_witness :
    1 ≤ 16 ∧
    ((∃ s1 e last, load 16 initialState "ab\ncde\nf".toList = .ok s1 e ∧
      s1.lines.getLast? = some last ∧
      s1.currentPosition = ⟨s1.lines.length - 1, last.length⟩) ∧
    (∃ s1, load 16 initialState [] = .ok s1 none ∧ s1.lines = [[]] ∧
      s1.currentPosition = ⟨0, 0⟩) ∧
    (2 ≤ 16 →
      ∃ s1, load 16 initialState "hello\nworld".toList = .ok s1 none ∧
        s1.lines = ["hello".toList, "world".toList] ∧ s1.currentPosition = ⟨1, 5⟩)) :=
  ⟨by decide, load_cursor_placement 16 (by decide) initialState _⟩

/-- C5. Round trip: for a buffer of between 1 and `maxLines` lines, none of
which contains a newline, loading the lines joined by the newline gives back
exactly those lines, emits no truncation payload, and puts the cursor at the
end of the last line. -/
theorem load_flatten_roundtrip (maxLines : Nat) (s : State) (ls : List Str)
    (h1 : 1 ≤ ls.length) (h2 : ls.length ≤ maxLines) (hn : ∀ l ∈ ls, NEWLINE ∉ l) :
    ∃ s1 last, load maxLines s (flatten ls) = .ok s1 none ∧ s1.lines = ls ∧
      ls.getLast? = some last ∧ s1.currentPosition = ⟨ls.length - 1, last.length⟩ := by
  have hne : ls ≠ [] := by
    intro h; rw [h] at h1; simp at h1
  by_cases hc : flatten ls = []
  · have hls := flatten_eq_nil ls hne hc
    subst hls
    exact ⟨_, [], load_nil maxLines s, rfl, rfl, rfl⟩
  · have hsplit := split_flatten ls hne hn
    obtain ⟨s1, last, hl, hlines, hlast, hpos⟩ :=
      load_fits maxLines s (flatten ls) hc (by rw [hsplit]; exact h2)
    rw [hsplit] at hlines hlast hpos
    exact ⟨s1, last, hl, hlines, hlast, hpos⟩

/-- Witness for C5: a three-line buffer with an empty middle line. -/
theorem load_flatten_roundtrip_witness :
    1 ≤ ["ab".toList, [], "c".toList].length ∧ ["ab".toList, [], "c".toList].length ≤ 16 ∧
    (∀ l ∈ ["ab".toList, [], "c".toList], NEWLINE ∉ l) ∧
    ∃ s1 last, load 16 initialState (flatten ["ab".toList, [], "c".toList]) = .ok s1 none ∧
      s1.lines = ["ab".toList, [], "c".toList] ∧
      ["ab".toList, [], "c".toList].getLast? = some last ∧
      s1.currentPosition = ⟨["ab".toList, [], "c".toList].length - 1, last.length⟩ :=
  ⟨by decide, by decide, by decide,
    load_flatten_roundtrip 16 initialState _ (by decide) (by decide) (by decide)⟩

/-! ## Inserting a character -/

theorem lineOrEmpty_of_getElem? (ls : List Str) (i : Nat) (cur : Str) (h : ls[i]? = some cur) :
    lineOrEmpty ls i = cur := by
  simp [lineOrEmpty, List.getD_eq_getElem?_getD, h]

theorem lt_length_of_getElem? (ls : List Str) (i : Nat) (cur : Str) (h : ls[i]? = some cur) :
    i < ls.length := by
  by_contra hge
  rw [List.getElem?_eq_none (by omega)] at h
  exact Option.noConfusion h

theorem spliceInsert_set (ls : List Str) (i : Nat) (v w : Str) (h : i < ls.length) :
    spliceInsert (ls.set i v) (i + 1) w = ls.take i ++ v :: w :: ls.drop (i + 1) := by
  induction ls generalizing i with
  | nil => simp at h
  | cons a t ih =>
    cases i with
    | zero => simp [spliceInsert]
    | succ j =>
      have hj : j < t.length := by simpa using h
      have := ih j hj
      simp only [spliceInsert] at this ⊢
      simp [this]

theorem handleCharacter_inline (maxLines : Nat) (s : State) (c : Char) (cur : Str)
    (hcur : s.lines[s.currentPosition.line]? = some cur)
    (hc : s.currentPosition.char < CHARS_PER_LINE) :
    ∃ s1, handleCharacter maxLines s c = .ok s1 (some (flatten s1.lines)) ∧
      s1.lines = s.lines.set s.currentPosition.line
        (cur.take s.currentPosition.char ++ c :: cur.drop s.currentPosition.char) ∧
      s1.currentPosition = ⟨s.currentPosition.line, s.currentPosition.char + 1⟩ := by
  have hl := lt_length_of_getElem? _ _ _ hcur
  have hnot : ¬ s.currentPosition.char ≥ CHARS_PER_LINE := by omega
  unfold handleCharacter
  simp only [hnot, if_false, setLine_of_lt _ _ _ hl, updateContent,
    lineOrEmpty_of_getElem? _ _ _ hcur]
  exact ⟨_, rfl, rfl, rfl⟩

theorem handleCharacter_break (maxLines : Nat) (s : State) (c : Char) (cur : Str)
    (hcur : s.lines[s.currentPosition.line]? = some cur)
    (hc : CHARS_PER_LINE ≤ s.currentPosition.char) (hm : s.lines.length < maxLines) :
    ∃ s1, handleCharacter maxLines s c = .ok s1 (some (flatten s1.lines)) ∧
      s1.lines = s.lines.take s.currentPosition.line ++
        (cur ++ [c]) :: [] :: s.lines.drop (s.currentPosition.line + 1) ∧
      s1.currentPosition = ⟨s.currentPosition.line + 1, 0⟩ := by
  have hl := lt_length_of_getElem? _ _ _ hcur
  have hge : s.currentPosition.char ≥ CHARS_PER_LINE := hc
  have hnot : ¬ s.lines.length ≥ maxLines := by omega
  unfold handleCharacter
  simp only [hge, hnot, if_true, if_false, setLine_of_lt _ _ _ hl, updateContent,
    animateLineBreak, lineOrEmpty_of_getElem? _ _ _ hcur]
  exact ⟨_, rfl, spliceInsert_set _ _ _ _ hl, rfl⟩

theorem handleCharacter_rejected (maxLines : Nat) (s : State) (c : Char)
    (hc : CHARS_PER_LINE ≤ s.currentPosition.char) (hm : maxLines ≤ s.lines.length) :
    handleCharacter maxLines s c = .ok s none := by
  have hge : s.currentPosition.char ≥ CHARS_PER_LINE := hc
  have hfull : s.lines.length ≥ maxLines := hm
  unfold handleCharacter
  simp only [hge, hfull, if_true]

theorem handleCharacter_not_rejected (maxLines : Nat) (s : State) (c : Char)
    (h : ¬ (CHARS_PER_LINE ≤ s.currentPosition.char ∧ maxLines ≤ s.lines.length))
    (s1 : State) : handleCharacter maxLines s c ≠ .ok s1 none := by
  unfold handleCharacter
  by_cases hc : s.currentPosition.char ≥ CHARS_PER_LINE
  · have hnot : ¬ s.lines.length ≥ maxLines := fun hf => h ⟨hc, hf⟩
    simp only [hc, hnot, if_true, if_false]
    cases setLine s.lines s.currentPosition.line
        (lineOrEmpty s.lines s.currentPosition.line ++ [c]) with
    | error f => simp
    | ok ls => simp [updateContent]
  · simp only [hc, if_false]
    cases setLine s.lines s.currentPosition.line
        (List.take s.currentPosition.char (lineOrEmpty s.lines s.currentPosition.line) ++
          c :: List.drop s.currentPosition.char (lineOrEmpty s.lines s.currentPosition.line)) with
    | error f => simp
    | ok ls => simp [updateContent]

/-! ## Runs of keystrokes -/

theorem run_append (maxLines : Nat) (ops1 ops2 : List Op) :
    ∀ (s s1 s2 : State) (es1 es2 : List (Option Str)),
      run maxLines s ops1 = .ok s1 es1 → run maxLines s1 ops2 = .ok s2 es2 →
      run maxLines s (ops1 ++ ops2) = .ok s2 (es1 ++ es2) := by
  induction ops1 with
  | nil =>
    intro s s1 s2 es1 es2 h1 h2
    simp only [run, Trace.ok.injEq] at h1
    obtain ⟨rfl, rfl⟩ := h1
    simpa using h2
  | cons op ops ih =>
    intro s s1 s2 es1 es2 h1 h2
    simp only [run] at h1
    cases hstep : step maxLines s op with
    | fault f => simp [hstep] at h1
    | ok t e =>
      simp only [hstep] at h1
      cases hrest : run maxLines t ops with
      | fault f => simp [hrest] at h1
      | ok t1 es =>
        simp only [hrest, Trace.ok.injEq] at h1
        obtain ⟨rfl, rfl⟩ := h1
        have := ih t t1 s2 es es2 hrest h2
        simp [run, hstep, this]

theorem run_singleton (maxLines : Nat) (s s1 : State) (op : Op) (e : Option Str)
    (h : step maxLines s op = .ok s1 e) : run maxLines s [op] = .ok s1 [e] := by
  simp [run, h]

theorem join_cons_cons (sep a b : Str) (t : List Str) :
    join sep (a :: b :: t) = a ++ sep ++ join sep (b :: t) := rfl

theorem flatten_append_last (pre : List Str) (x y : Str) :
    flatten (pre ++ [x ++ y]) = flatten (pre ++ [x]) ++ y := by
  induction pre with
  | nil => simp [flatten, join]
  | cons p t ih =>
    cases t with
    | nil => simp [flatten, join]
    | cons q t =>
      simp only [flatten, List.cons_append, join_cons_cons] at ih ⊢
      rw [ih]
      simp [List.append_assoc]

theorem flatten_append_empty (pre : List Str) (x : Str) :
    flatten (pre ++ [x, []]) = flatten (pre ++ [x]) ++ [NEWLINE] := by
  induction pre with
  | nil => simp [flatten, join]
  | cons p t ih =>
    cases t with
    | nil => simp [flatten, join]
    | cons q t =>
      simp only [flatten, List.cons_append, join_cons_cons] at ih ⊢
      rw [ih]
      simp [List.append_assoc]

theorem withForcedBreaksFrom_snoc (cs : Str) (c : Char) :
    ∀ done : Nat, withForcedBreaksFrom done (cs ++ [c]) =
      withForcedBreaksFrom done cs ++
        (if (done + cs.length + 1) % (CHARS_PER_LINE + 1) = 0 then [c, NEWLINE] else [c]) := by
  induction cs with
  | nil =>
    intro done
    by_cases h : (done + 1) % (CHARS_PER_LINE + 1) = 0 <;> simp [withForcedBreaksFrom, h]
  | cons a t ih =>
    intro done
    have e : done + (t.length + 1) + 1 = done + 1 + t.length + 1 := by omega
    by_cases h : (done + 1) % (CHARS_PER_LINE + 1) = 0 <;>
      simp [withForcedBreaksFrom, h, ih (done + 1), e]

theorem run_length (maxLines : Nat) (ops : List Op) :
    ∀ (s s1 : State) (es : List (Option Str)),
      run maxLines s ops = .ok s1 es → es.length = ops.length := by
  induction ops with
  | nil =>
    intro s s1 es h
    simp only [run, Trace.ok.injEq] at h
    rw [← h.2]
    rfl
  | cons op ops ih =>
    intro s s1 es h
    simp only [run] at h
    cases hstep : step maxLines s op with
    | fault f => simp [hstep] at h
    | ok t e =>
      simp only [hstep] at h
      cases hrest : run maxLines t ops with
      | fault f => simp [hrest] at h
      | ok t1 es1 =>
        simp only [hrest, Trace.ok.injEq] at h
        rw [← h.2, List.length_cons, List.length_cons, ih t t1 es1 hrest]

theorem handleCharacter_atEnd_inline (maxLines : Nat) (s : State) (c : Char)
    (pre : List Str) (last : Str) (hA : AtEnd s pre last)
    (hc : last.length < CHARS_PER_LINE) :
    ∃ s1, handleCharacter maxLines s c = .ok s1 (some (flatten s1.lines)) ∧
      AtEnd s1 pre (last ++ [c]) := by
  obtain ⟨hl, hp⟩ := hA
  have hcur : s.lines[s.currentPosition.line]? = some last := by
    rw [hl, hp]; simp
  obtain ⟨s1, h1, h2, h3⟩ := handleCharacter_inline maxLines s c last hcur (by rw [hp]; exact hc)
  refine ⟨s1, h1, ?_, ?_⟩
  · rw [h2, hl, hp]; simp
  · rw [h3, hp]; simp

theorem handleCharacter_atEnd_break (maxLines : Nat) (s : State) (c : Char)
    (pre : List Str) (last : Str) (hA : AtEnd s pre last)
    (hc : CHARS_PER_LINE ≤ last.length) (hm : pre.length + 1 < maxLines) :
    ∃ s1, handleCharacter maxLines s c = .ok s1 (some (flatten s1.lines)) ∧
      AtEnd s1 (pre ++ [last ++ [c]]) [] := by
  obtain ⟨hl, hp⟩ := hA
  have hcur : s.lines[s.currentPosition.line]? = some last := by
    rw [hl, hp]; simp
  obtain ⟨s1, h1, h2, h3⟩ := handleCharacter_break maxLines s c last hcur
    (by rw [hp]; exact hc) (by rw [hl]; simpa using hm)
  refine ⟨s1, h1, ?_, ?_⟩
  · rw [h2, hl, hp]; simp
  · rw [h3, hp]; simp

theorem handleCharacter_atEnd_rejected (maxLines : Nat) (s : State) (c : Char)
    (pre : List Str) (last : Str) (hA : AtEnd s pre last)
    (hc : CHARS_PER_LINE ≤ last.length) (hm : maxLines ≤ pre.length + 1) :
    handleCharacter maxLines s c = .ok s none := by
  obtain ⟨hl, hp⟩ := hA
  exact handleCharacter_rejected maxLines s c (by rw [hp]; exact hc) (by rw [hl]; simpa using hm)

theorem typing_run (maxLines : Nat) (typed : Str) :
    ∃ s es pre last, run maxLines initialState (typed.map Op.insertChar) = .ok s es ∧
      AtEnd s pre last ∧
      (es.all Option.isSome = true →
        last.length = typed.length % (CHARS_PER_LINE + 1) ∧
        flatten s.lines = withForcedBreaks typed) := by
  induction typed using List.reverseRecOn with
  | nil =>
    exact ⟨initialState, [], [], [], rfl, ⟨rfl, rfl⟩, fun _ => ⟨rfl, rfl⟩⟩
  | append_singleton cs c ih =>
    obtain ⟨s, es, pre, last, hr, hA, hacc⟩ := ih
    have hmap : (cs ++ [c]).map Op.insertChar = cs.map Op.insertChar ++ [Op.insertChar c] := by
      simp
    have hlines : s.lines = pre ++ [last] := hA.1
    rw [hmap]
    by_cases hc : last.length < CHARS_PER_LINE
    · obtain ⟨s1, h1, hA1⟩ := handleCharacter_atEnd_inline maxLines s c pre last hA hc
      refine ⟨s1, es ++ [some (flatten s1.lines)], pre, last ++ [c],
        run_append maxLines _ _ _ _ _ _ _ hr (run_singleton maxLines _ _ _ _ h1), hA1, ?_⟩
      intro hall
      have hes : es.all Option.isSome = true := by
        simp only [List.all_append, Bool.and_eq_true] at hall
        exact hall.1
      obtain ⟨hlen, hflat⟩ := hacc hes
      have hbreak : ¬ (0 + cs.length + 1) % (CHARS_PER_LINE + 1) = 0 := by
        simp only [CHARS_PER_LINE] at hc hlen ⊢
        omega
      constructor
      · simp only [List.length_append, List.length_singleton, CHARS_PER_LINE] at hc hlen ⊢
        omega
      · rw [hA1.1, flatten_append_last, ← hlines, hflat]
        simp only [withForcedBreaks, withForcedBreaksFrom_snoc, hbreak, if_false]
    · by_cases hm : pre.length + 1 < maxLines
      · obtain ⟨s1, h1, hA1⟩ :=
          handleCharacter_atEnd_break maxLines s c pre last hA (by omega) hm
        refine ⟨s1, es ++ [some (flatten s1.lines)], pre ++ [last ++ [c]], [],
          run_append maxLines _ _ _ _ _ _ _ hr (run_singleton maxLines _ _ _ _ h1), hA1, ?_⟩
        intro hall
        have hes : es.all Option.isSome = true := by
          simp only [List.all_append, Bool.and_eq_true] at hall
          exact hall.1
        obtain ⟨hlen, hflat⟩ := hacc hes
        have hbreak : (0 + cs.length + 1) % (CHARS_PER_LINE + 1) = 0 := by
          have := Nat.mod_lt cs.length (show 0 < CHARS_PER_LINE + 1 by simp)
          simp only [CHARS_PER_LINE] at hc hlen this ⊢
          omega
        constructor
        · simp only [List.length_append, List.length_singleton, List.length_nil,
            CHARS_PER_LINE] at hbreak ⊢
          omega
        · rw [hA1.1, List.append_assoc, List.singleton_append, flatten_append_empty,
            flatten_append_last, ← hlines, hflat]
          simp only [withForcedBreaks, withForcedBreaksFrom_snoc, hbreak, if_true,
            List.append_assoc, List.singleton_append]
      · have h1 := handleCharacter_atEnd_rejected maxLines s c pre last hA (by omega) (by omega)
        refine ⟨s, es ++ [none], pre, last,
          run_append maxLines _ _ _ _ _ _ _ hr (run_singleton maxLines _ _ _ _ h1), hA, ?_⟩
        intro hall
        simp at hall

theorem typing_first_line (maxLines : Nat) (typed : Str) (h : typed.length ≤ CHARS_PER_LINE) :
    ∃ s es, run maxLines initialState (typed.map Op.insertChar) = .ok s es ∧
      AtEnd s [] typed := by
  induction typed using List.reverseRecOn with
  | nil => exact ⟨initialState, [], rfl, rfl, rfl⟩
  | append_singleton cs c ih =>
    have hlen : cs.length < CHARS_PER_LINE := by
      simp only [List.length_append, List.length_singleton] at h
      omega
    obtain ⟨s, es, hr, hA⟩ := ih (by omega)
    obtain ⟨s1, h1, hA1⟩ := handleCharacter_atEnd_inline maxLines s c [] cs hA hlen
    refine ⟨s1, es ++ [some (flatten s1.lines)], ?_, hA1⟩
    rw [List.map_append]
    exact run_append maxLines _ _ _ _ _ _ _ hr (run_singleton maxLines _ _ _ _ h1)

/-! ## insertChar -/

/-- C6. insertChar, in-line path: when the cursor is on an existing line `cur`
and `cursor.char < CHARS_PER_LINE`, `handleCharacter` succeeds, replaces that
line by `cur[0:char] + c + cur[char:]`, moves the cursor one column to the
right on the same line, and changes neither the line count nor any other
line. -/
theorem insertChar_in_line (maxLines : Nat) (s : State) (c : Char) (cur : Str)
    (hcur : s.lines[s.currentPosition.line]? = some cur)
    (hc : s.currentPosition.char < CHARS_PER_LINE) :
    ∃ s1 e, handleCharacter maxLines s c = .ok s1 e ∧
      s1.lines[s.currentPosition.line]? =
        some (cur.take s.currentPosition.char ++ c :: cur.drop s.currentPosition.char) ∧
      s1.currentPosition = ⟨s.currentPosition.line, s.currentPosition.char + 1⟩ ∧
      s1.lines.length = s.lines.length ∧
      ∀ i : Nat, i ≠ s.currentPosition.line → s1.lines[i]? = s.lines[i]? := by
  have hl := lt_length_of_getElem? _ _ _ hcur
  obtain ⟨s1, h1, h2, h3⟩ := handleCharacter_inline maxLines s c cur hcur hc
  refine ⟨s1, _, h1, ?_, h3, ?_, ?_⟩
  · rw [h2]; simp [hl]
  · rw [h2]; simp
  · intro i hi
    rw [h2, List.getElem?_set_ne (Ne.symm hi)]

/-- Witness for C6: inserting `x` between `a` and `b` on the second line. -/
theorem insertChar_in_line_witness :
    (({ initialState with lines := [['z'], ['a', 'b']], currentPosition := ⟨1, 1⟩ } : State).lines[1]? =
      some ['a', 'b']) ∧ 1 < CHARS_PER_LINE ∧
    ∃ s1 e, handleCharacter 16
        { initialState with lines := [['z'], ['a', 'b']], currentPosition := ⟨1, 1⟩ } 'x' =
          .ok s1 e ∧
      s1.lines[1]? = some (['a', 'b'].take 1 ++ 'x' :: ['a', 'b'].drop 1) ∧
      s1.currentPosition = ⟨1, 1 + 1⟩ ∧
      s1.lines.length = [['z'], ['a', 'b']].length ∧
      ∀ i : Nat, i ≠ 1 → s1.lines[i]? = [['z'], ['a', 'b']][i]? :=
  ⟨by decide, by decide,
    insertChar_in_line 16
      { initialState with lines := [['z'], ['a', 'b']], currentPosition := ⟨1, 1⟩ } 'x'
      ['a', 'b'] (by decide) (by decide)⟩

/-- C7. insertChar, forced line break: when the cursor is on an existing line
`cur`, `cursor.char ≥ CHARS_PER_LINE` and `lines.length < maxLines`,
`handleCharacter` succeeds, appends `c` to the end of the current line and
inserts an empty line right after it, all other lines unchanged and the line
count one higher, with the cursor at `(line + 1, 0)`.  In particular typing 38
characters and one more into the initial buffer gives two lines, the first of
39 characters and the second empty, with the cursor at `(1,0)`. -/
theorem insertChar_forced_break (maxLines : Nat) (s : State) (c : Char) (cur : Str)
    (hcur : s.lines[s.currentPosition.line]? = some cur)
    (hc : CHARS_PER_LINE ≤ s.currentPosition.char) (hm : s.lines.length < maxLines) :
    (∃ s1 e, handleCharacter maxLines s c = .ok s1 e ∧
      s1.lines = s.lines.take s.currentPosition.line ++
        (cur ++ [c]) :: [] :: s.lines.drop (s.currentPosition.line + 1) ∧
      s1.lines.length = s.lines.length + 1 ∧
      s1.currentPosition = ⟨s.currentPosition.line + 1, 0⟩) ∧
    (∀ (typed : Str) (last : Char), typed.length = 38 →
      ∃ s1 es, run maxLines initialState ((typed ++ [last]).map Op.insertChar) = .ok s1 es ∧
        s1.lines = [typed ++ [last], []] ∧ (typed ++ [last]).length = 39 ∧
        s1.currentPosition = ⟨1, 0⟩) := by
  have hl := lt_length_of_getElem? _ _ _ hcur
  constructor
  · obtain ⟨s1, h1, h2, h3⟩ := handleCharacter_break maxLines s c cur hcur hc hm
    refine ⟨s1, _, h1, h2, ?_, h3⟩
    rw [h2]
    simp only [List.length_append, List.length_cons, List.length_take, List.length_drop]
    omega
  · intro typed last hlen
    obtain ⟨s0, es, hr, hA⟩ := typing_first_line maxLines typed
      (by rw [hlen]; decide)
    obtain ⟨s1, h1, hA1⟩ := handleCharacter_atEnd_break maxLines s0 last [] typed hA
      (by rw [hlen]; decide) (by simp only [List.length_nil]; omega)
    refine ⟨s1, es ++ [some (flatten s1.lines)], ?_, by simpa using hA1.1, by simp [hlen], ?_⟩
    · rw [List.map_append]
      exact run_append maxLines _ _ _ _ _ _ _ hr (run_singleton maxLines _ _ _ _ h1)
    · simpa using hA1.2

/-- Witness for C7: a 38-character line with the cursor at its end. -/
theorem insertChar_forced_break_witness :
    (({ initialState with lines := [List.replicate 38 'a'],
                          currentPosition := ⟨0, 38⟩ } : State).lines[0]? =
      some (List.replicate 38 'a')) ∧
    CHARS_PER_LINE ≤ 38 ∧ [List.replicate 38 'a'].length < 16 ∧
    ((∃ s1 e, handleCharacter 16
        { initialState with lines := [List.replicate 38 'a'], currentPosition := ⟨0, 38⟩ } 'b' =
          .ok s1 e ∧
      s1.lines = [List.replicate 38 'a'].take 0 ++
        (List.replicate 38 'a' ++ ['b']) :: [] :: [List.replicate 38 'a'].drop (0 + 1) ∧
      s1.lines.length = [List.replicate 38 'a'].length + 1 ∧
      s1.currentPosition = ⟨0 + 1, 0⟩) ∧
    (∀ (typed : Str) (last : Char), typed.length = 38 →
      ∃ s1 es, run 16 initialState ((typed ++ [last]).map Op.insertChar) = .ok s1 es ∧
        s1.lines = [typed ++ [last], []] ∧ (typed ++ [last]).length = 39 ∧
        s1.currentPosition = ⟨1, 0⟩)) :=
  ⟨by decide, by decide, by decide,
    insertChar_forced_break 16
      { initialState with lines := [List.replicate 38 'a'], currentPosition := ⟨0, 38⟩ } 'b'
      (List.replicate 38 'a') (by decide) (by decide) (by decide)⟩

/-- C8. insertChar rejection: `handleCharacter` returns without emitting a
payload exactly when `cursor.char ≥ CHARS_PER_LINE` and
`lines.length ≥ maxLines`; in that case the whole state (lines, cursor,
carriage offset, animation flag, timers, last content) is the state before.
In every other case, with the cursor on an existing line, the insert succeeds,
emits a payload and moves the cursor. -/
theorem insertChar_rejection (maxLines : Nat) (s : State) (c : Char) :
    ((∃ s1, handleCharacter maxLines s c = .ok s1 none) ↔
      (CHARS_PER_LINE ≤ s.currentPosition.char ∧ maxLines ≤ s.lines.length)) ∧
    (∀ s1, handleCharacter maxLines s c = .ok s1 none → s1 = s) ∧
    (¬ (CHARS_PER_LINE ≤ s.currentPosition.char ∧ maxLines ≤ s.lines.length) →
      s.currentPosition.line < s.lines.length →
      ∃ s1 content, handleCharacter maxLines s c = .ok s1 (some content) ∧
        s1.currentPosition ≠ s.currentPosition) := by
  refine ⟨⟨?_, ?_⟩, ?_, ?_⟩
  · rintro ⟨s1, h1⟩
    by_contra hcond
    exact handleCharacter_not_rejected maxLines s c hcond s1 h1
  · rintro ⟨hc, hm⟩
    exact ⟨s, handleCharacter_rejected maxLines s c hc hm⟩
  · intro s1 h1
    by_cases hcond : CHARS_PER_LINE ≤ s.currentPosition.char ∧ maxLines ≤ s.lines.length
    · rw [handleCharacter_rejected maxLines s c hcond.1 hcond.2] at h1
      simp only [Outcome.ok.injEq, and_true] at h1
      exact h1.symm
    · exact absurd h1 (handleCharacter_not_rejected maxLines s c hcond s1)
  · intro hcond hl
    have hcur : s.lines[s.currentPosition.line]? = some s.lines[s.currentPosition.line] :=
      List.getElem?_eq_getElem hl
    by_cases hc : CHARS_PER_LINE ≤ s.currentPosition.char
    · have hm : s.lines.length < maxLines := by
        by_contra hge
        exact hcond ⟨hc, by omega⟩
      obtain ⟨s1, h1, _, h3⟩ := handleCharacter_break maxLines s c _ hcur hc hm
      refine ⟨s1, _, h1, ?_⟩
      rw [h3]
      intro h
      have := congrArg Position.line h
      simp at this
    · obtain ⟨s1, h1, _, h3⟩ := handleCharacter_inline maxLines s c _ hcur (by omega)
      refine ⟨s1, _, h1, ?_⟩
      rw [h3]
      intro h
      have := congrArg Position.char h
      simp at this

/-- Witness for C8: a one-line buffer with `maxLines = 1`, once with the cursor
at the right edge (rejected) and once with the cursor at column 0 (accepted). -/
theorem insertChar_rejection_witness :
    handleCharacter 1
        { initialState with lines := [List.replicate 39 'a'], currentPosition := ⟨0, 39⟩ } 'b' =
      .ok { initialState with lines := [List.replicate 39 'a'], currentPosition := ⟨0, 39⟩ }
        none ∧
    ∃ s1 content, handleCharacter 1 initialState 'b' = .ok s1 (some content) ∧
      s1.currentPosition ≠ initialState.currentPosition := by
  have h := insertChar_rejection 1
    { initialState with lines := [List.replicate 39 'a'], currentPosition := ⟨0, 39⟩ } 'b'
  obtain ⟨s1, h1⟩ := h.1.mpr (by decide)
  have h2 := h.2.1 s1 h1
  rw [h2] at h1
  exact ⟨h1, (insertChar_rejection 1 initialState 'b').2.2 (by decide) (by decide)⟩

/-- C9. Typed-text fidelity: typing any characters with insertChar into the
initial empty buffer runs to completion, and when every insert emitted its
content-changed payload (every insert was accepted) the flattened buffer is
the typed characters in order with one newline immediately after every
`(CHARS_PER_LINE + 1)`-th character and nowhere else. -/
theorem typed_text_fidelity (maxLines : Nat) (typed : Str) :
    ∃ s es, run maxLines initialState (typed.map Op.insertChar) = .ok s es ∧
      es.length = typed.length ∧
      (es.all Option.isSome = true → flatten s.lines = withForcedBreaks typed) := by
  obtain ⟨s, es, pre, last, hr, _, hacc⟩ := typing_run maxLines typed
  refine ⟨s, es, hr, ?_, fun h => (hacc h).2⟩
  have := run_length maxLines (typed.map Op.insertChar) initialState s es hr
  simpa using this

set_option maxRecDepth 100000 in
/-- Witness for C9: forty-one characters typed with `maxLines = 16` are all
accepted, and the flattened buffer has one newline, after the 39th. -/
theorem typed_text_fidelity_witness :
    ∃ s es, run 16 initialState
        ("0123456789abcdefghijklmnopqrstuvwxyzABCDE".toList.map Op.insertChar) = .ok s es ∧
      es.all Option.isSome = true ∧
      flatten s.lines = "0123456789abcdefghijklmnopqrstuvwxyzABC\nDE".toList := by
  have hall : allEmitted (run 16 initialState
      ("0123456789abcdefghijklmnopqrstuvwxyzABCDE".toList.map Op.insertChar)) = true := by
    decide
  obtain ⟨s, es, hr, _, h⟩ :=
    typed_text_fidelity 16 "0123456789abcdefghijklmnopqrstuvwxyzABCDE".toList
  rw [hr] at hall
  exact ⟨s, es, hr, hall, (h hall).trans (by decide)⟩

/-- C10. Backspace at the start of the document: with the cursor at `(0,0)`,
`handleBackspace` returns the state it was given (lines, cursor, carriage
offset and everything else identical) and emits no payload. -/
theorem backspace_at_origin (s : State) (h : s.currentPosition = ⟨0, 0⟩) :
    handleBackspace s = .ok s none := by
  unfold handleBackspace
  simp [h]

/-- Witness for C10: a two-line buffer with the cursor at `(0,0)`. -/
theorem backspace_at_origin_witness :
    ({ initialState with lines := [['a'], ['b']], paperOffset := -15 } : State).currentPosition =
      ⟨0, 0⟩ ∧
    handleBackspace { initialState with lines := [['a'], ['b']], paperOffset := -15 } =
      .ok { initialState with lines := [['a'], ['b']], paperOffset := -15 } none :=
  ⟨by decide, backspace_at_origin _ (by decide)⟩

/-! ## Deleting -/

theorem spliceRemove_set (ls : List Str) (j : Nat) (v : Str) (h : j < ls.length) :
    spliceRemove (ls.set j v) (j + 1) = ls.take j ++ v :: ls.drop (j + 2) := by
  induction ls generalizing j with
  | nil => simp at h
  | cons a t ih =>
    cases j with
    | zero => simp [spliceRemove]
    | succ k =>
      have hk : k < t.length := by simpa using h
      have := ih k hk
      simp only [spliceRemove] at this ⊢
      simp [this]

theorem getLastLineCharCount_of_getLast (ls : List Str) (last : Str)
    (h : ls.getLast? = some last) : getLastLineCharCount ls = last.length := by
  simp [getLastLineCharCount, h]

theorem handleBackspace_merge (s : State) (prev cur : Str)
    (hprev : s.lines[s.currentPosition.line - 1]? = some prev)
    (hcur : s.lines[s.currentPosition.line]? = some cur)
    (hc : s.currentPosition.char = 0) (hl : 0 < s.currentPosition.line) :
    ∃ s1, handleBackspace s = .ok s1 (some (flatten s1.lines)) ∧
      s1.lines = s.lines.take (s.currentPosition.line - 1) ++
        (prev ++ cur) :: s.lines.drop (s.currentPosition.line + 1) ∧
      s1.currentPosition = ⟨s.currentPosition.line - 1, prev.length⟩ ∧
      s1.paperOffset = -(getLastLineCharCount s1.lines : Int) * CHAR_WIDTH ∧
      s1.isAnimating = s.isAnimating ∧ s1.timers = s.timers := by
  have hlp := lt_length_of_getElem? _ _ _ hprev
  have h0 : ¬ s.currentPosition.line = 0 := by omega
  obtain ⟨j, hj⟩ : ∃ j, s.currentPosition.line = j + 1 := ⟨s.currentPosition.line - 1, by omega⟩
  have hlist : spliceRemove (s.lines.set (s.currentPosition.line - 1) (prev ++ cur))
      s.currentPosition.line = s.lines.take (s.currentPosition.line - 1) ++
        (prev ++ cur) :: s.lines.drop (s.currentPosition.line + 1) := by
    rw [hj] at hlp ⊢
    exact spliceRemove_set _ _ _ (by simpa using hlp)
  unfold handleBackspace
  simp only [h0, hc, and_false, if_true, if_false, List.get?_eq_getElem?, hprev, hcur,
    Option.getD_some, updateContent, hlist]
  exact ⟨_, rfl, rfl, rfl, rfl, rfl, rfl⟩

theorem handleBackspace_delete (s : State) (cur : Str)
    (hcur : s.lines[s.currentPosition.line]? = some cur)
    (hc : 0 < s.currentPosition.char) :
    ∃ s1, handleBackspace s = .ok s1 (some (flatten s1.lines)) ∧
      s1.lines = s.lines.set s.currentPosition.line
        (cur.take (s.currentPosition.char - 1) ++ cur.drop s.currentPosition.char) ∧
      s1.currentPosition = ⟨s.currentPosition.line, s.currentPosition.char - 1⟩ ∧
      s1.paperOffset = -(getLastLineCharCount s1.lines : Int) * CHAR_WIDTH ∧
      s1.isAnimating = s.isAnimating ∧ s1.timers = s.timers := by
  have hc0 : ¬ s.currentPosition.char = 0 := by omega
  unfold handleBackspace
  simp only [hc0, false_and, if_false, List.get?_eq_getElem?, hcur, updateContent]
  exact ⟨_, rfl, rfl, rfl, rfl, rfl, rfl⟩

/-! ## Breaking a line -/

theorem handleEnter_accepted (maxLines : Nat) (s : State) (cur : Str)
    (hcur : s.lines[s.currentPosition.line]? = some cur)
    (hm : s.lines.length < maxLines) :
    ∃ s1, handleEnter maxLines s = .ok s1 (some (flatten s1.lines)) ∧
      s1.lines = s.lines.take s.currentPosition.line ++
        cur.take s.currentPosition.char :: cur.drop s.currentPosition.char ::
          s.lines.drop (s.currentPosition.line + 1) ∧
      s1.currentPosition = ⟨s.currentPosition.line + 1, 0⟩ ∧
      s1.paperOffset = s.paperOffset - CHAR_WIDTH ∧ s1.isAnimating = true ∧
      s1.timers = s.timers ++ [-(getLastLineCharCount s1.lines : Int) * CHAR_WIDTH] := by
  have hl := lt_length_of_getElem? _ _ _ hcur
  have hnot : ¬ s.lines.length ≥ maxLines := by omega
  unfold handleEnter
  simp only [hnot, if_false, setLine_of_lt _ _ _ hl, updateContent, animateLineBreak,
    lineOrEmpty_of_getElem? _ _ _ hcur, spliceInsert_set _ _ _ _ hl]
  exact ⟨_, rfl, rfl, rfl, rfl, rfl, rfl⟩

theorem handleEnter_rejected (maxLines : Nat) (s : State)
    (hm : maxLines ≤ s.lines.length) :
    handleEnter maxLines s =
      .ok { s with currentPosition := ⟨s.currentPosition.line,
        ((lineOrEmpty s.lines s.currentPosition.line).take s.currentPosition.char).length⟩ }
        none := by
  have hfull : s.lines.length ≥ maxLines := hm
  unfold handleEnter
  simp only [hfull, if_true]

/-! ## Carriage offset of an insert -/

theorem handleCharacter_inline_offset (maxLines : Nat) (s : State) (c : Char) (cur : Str)
    (hcur : s.lines[s.currentPosition.line]? = some cur)
    (hc : s.currentPosition.char < CHARS_PER_LINE) :
    ∃ s1, handleCharacter maxLines s c = .ok s1 (some (flatten s1.lines)) ∧
      s1.lines = s.lines.set s.currentPosition.line
        (cur.take s.currentPosition.char ++ c :: cur.drop s.currentPosition.char) ∧
      s1.paperOffset = -(getLastLineCharCount s1.lines : Int) * CHAR_WIDTH ∧
      s1.isAnimating = s.isAnimating ∧ s1.timers = s.timers := by
  have hl := lt_length_of_getElem? _ _ _ hcur
  have hnot : ¬ s.currentPosition.char ≥ CHARS_PER_LINE := by omega
  unfold handleCharacter
  simp only [hnot, if_false, setLine_of_lt _ _ _ hl, updateContent,
    lineOrEmpty_of_getElem? _ _ _ hcur]
  exact ⟨_, rfl, rfl, rfl, rfl, rfl⟩

theorem handleCharacter_break_offset (maxLines : Nat) (s : State) (c : Char) (cur : Str)
    (hcur : s.lines[s.currentPosition.line]? = some cur)
    (hc : CHARS_PER_LINE ≤ s.currentPosition.char) (hm : s.lines.length < maxLines) :
    ∃ s1, handleCharacter maxLines s c = .ok s1 (some (flatten s1.lines)) ∧
      s1.lines = s.lines.take s.currentPosition.line ++
        (cur ++ [c]) :: [] :: s.lines.drop (s.currentPosition.line + 1) ∧
      s1.paperOffset = s.paperOffset - CHAR_WIDTH ∧ s1.isAnimating = true ∧
      s1.timers = s.timers ++ [-(getLastLineCharCount s1.lines : Int) * CHAR_WIDTH] := by
  have hl := lt_length_of_getElem? _ _ _ hcur
  have hge : s.currentPosition.char ≥ CHARS_PER_LINE := hc
  have hnot : ¬ s.lines.length ≥ maxLines := by omega
  unfold handleCharacter
  simp only [hge, hnot, if_true, if_false, setLine_of_lt _ _ _ hl, updateContent,
    animateLineBreak, lineOrEmpty_of_getElem? _ _ _ hcur, spliceInsert_set _ _ _ _ hl]
  exact ⟨_, rfl, rfl, rfl, rfl, rfl⟩

/-! ## backspace -/

/-- C11. Backspace line merge: with the cursor at column 0 of an existing line
`cur` that has a line `prev` before it, `handleBackspace` succeeds, replaces
the previous line by `prev ++ cur`, removes the current line (one line fewer,
the lines before unchanged, the lines after moved up by one, in order), and
moves the cursor to `(line - 1, prev.length)`. -/
theorem backspace_line_merge (s : State) (prev cur : Str)
    (hprev : s.lines[s.currentPosition.line - 1]? = some prev)
    (hcur : s.lines[s.currentPosition.line]? = some cur)
    (hc : s.currentPosition.char = 0) (hl : 0 < s.currentPosition.line) :
    ∃ s1 e, handleBackspace s = .ok s1 e ∧
      s1.lines = s.lines.take (s.currentPosition.line - 1) ++
        (prev ++ cur) :: s.lines.drop (s.currentPosition.line + 1) ∧
      s1.lines.length = s.lines.length - 1 ∧
      s1.lines[s.currentPosition.line - 1]? = some (prev ++ cur) ∧
      (∀ i : Nat, i < s.currentPosition.line - 1 → s1.lines[i]? = s.lines[i]?) ∧
      (∀ i : Nat, s.currentPosition.line ≤ i → s1.lines[i]? = s.lines[i + 1]?) ∧
      s1.currentPosition = ⟨s.currentPosition.line - 1, prev.length⟩ := by
  have hlen := lt_length_of_getElem? _ _ _ hcur
  obtain ⟨s1, h1, h2, h3, _⟩ := handleBackspace_merge s prev cur hprev hcur hc hl
  have htake : (s.lines.take (s.currentPosition.line - 1)).length =
      s.currentPosition.line - 1 := by
    rw [List.length_take]; omega
  refine ⟨s1, _, h1, h2, ?_, ?_, ?_, ?_, h3⟩
  · rw [h2]
    simp only [List.length_append, List.length_cons, List.length_take, List.length_drop]
    omega
  · rw [h2, List.getElem?_append_right (by omega), htake]
    simp
  · intro i hi
    rw [h2, List.getElem?_append_left (by omega), List.getElem?_take_of_lt hi]
  · intro i hi
    rw [h2, List.getElem?_append_right (by omega), htake]
    obtain ⟨k, hk⟩ : ∃ k, i - (s.currentPosition.line - 1) = k + 1 :=
      ⟨i - s.currentPosition.line, by omega⟩
    rw [hk, List.getElem?_cons_succ, List.getElem?_drop]
    congr 1
    omega

/-- Witness for C11: the cursor at the start of the middle line of three. -/
theorem backspace_line_merge_witness :
    (({ initialState with lines := [['a'], ['b', 'c'], ['d']],
                          currentPosition := ⟨1, 0⟩ } : State).lines[1 - 1]? = some ['a']) ∧
    (({ initialState with lines := [['a'], ['b', 'c'], ['d']],
                          currentPosition := ⟨1, 0⟩ } : State).lines[1]? = some ['b', 'c']) ∧
    ∃ s1 e, handleBackspace
        { initialState with lines := [['a'], ['b', 'c'], ['d']], currentPosition := ⟨1, 0⟩ } =
          .ok s1 e ∧
      s1.lines = [['a'], ['b', 'c'], ['d']].take (1 - 1) ++
        (['a'] ++ ['b', 'c']) :: [['a'], ['b', 'c'], ['d']].drop (1 + 1) ∧
      s1.lines.length = [['a'], ['b', 'c'], ['d']].length - 1 ∧
      s1.lines[1 - 1]? = some (['a'] ++ ['b', 'c']) ∧
      (∀ i : Nat, i < 1 - 1 → s1.lines[i]? = [['a'], ['b', 'c'], ['d']][i]?) ∧
      (∀ i : Nat, 1 ≤ i → s1.lines[i]? = [['a'], ['b', 'c'], ['d']][i + 1]?) ∧
      s1.currentPosition = ⟨1 - 1, ['a'].length⟩ :=
  ⟨by decide, by decide,
    backspace_line_merge
      { initialState with lines := [['a'], ['b', 'c'], ['d']], currentPosition := ⟨1, 0⟩ }
      ['a'] ['b', 'c'] (by decide) (by decide) (by decide) (by decide)⟩

/-- C12. Backspace character delete: with the cursor on an existing line
`cur` at a column `char` with `0 < char ≤ cur.length`, `handleBackspace`
succeeds and the current line becomes `cur[0:char-1] + cur[char:]`, which is
`cur` with exactly the character at index `char - 1` removed; every other line
and the line count are unchanged, and the cursor moves back one column on the
same line. -/
theorem backspace_char_delete (s : State) (cur : Str)
    (hcur : s.lines[s.currentPosition.line]? = some cur)
    (hc : 0 < s.currentPosition.char) (hch : s.currentPosition.char ≤ cur.length) :
    ∃ s1 e, handleBackspace s = .ok s1 e ∧
      s1.lines[s.currentPosition.line]? =
        some (cur.take (s.currentPosition.char - 1) ++ cur.drop s.currentPosition.char) ∧
      cur.take (s.currentPosition.char - 1) ++ cur.drop s.currentPosition.char =
        cur.eraseIdx (s.currentPosition.char - 1) ∧
      (cur.eraseIdx (s.currentPosition.char - 1)).length + 1 = cur.length ∧
      s1.lines.length = s.lines.length ∧
      (∀ i : Nat, i ≠ s.currentPosition.line → s1.lines[i]? = s.lines[i]?) ∧
      s1.currentPosition = ⟨s.currentPosition.line, s.currentPosition.char - 1⟩ := by
  have hl := lt_length_of_getElem? _ _ _ hcur
  obtain ⟨s1, h1, h2, h3, _⟩ := handleBackspace_delete s cur hcur hc
  have herase : cur.take (s.currentPosition.char - 1) ++ cur.drop s.currentPosition.char =
      cur.eraseIdx (s.currentPosition.char - 1) := by
    rw [List.eraseIdx_eq_take_drop_succ]
    congr 2
    omega
  refine ⟨s1, _, h1, ?_, herase, ?_, ?_, ?_, h3⟩
  · rw [h2]; simp [hl]
  · rw [List.length_eraseIdx]
    have : s.currentPosition.char - 1 < cur.length := by omega
    simp only [this, if_true]
    omega
  · rw [h2]; simp
  · intro i hi
    rw [h2, List.getElem?_set_ne (Ne.symm hi)]

/-- Witness for C12: deleting the `b` of `abc` with the cursor at column 2. -/
theorem backspace_char_delete_witness :
    (({ initialState with lines := [['z'], ['a', 'b', 'c']],
                          currentPosition := ⟨1, 2⟩ } : State).lines[1]? =
      some ['a', 'b', 'c']) ∧ 0 < 2 ∧ 2 ≤ ['a', 'b', 'c'].length ∧
    ∃ s1 e, handleBackspace
        { initialState with lines := [['z'], ['a', 'b', 'c']], currentPosition := ⟨1, 2⟩ } =
          .ok s1 e ∧
      s1.lines[1]? = some (['a', 'b', 'c'].take (2 - 1) ++ ['a', 'b', 'c'].drop 2) ∧
      ['a', 'b', 'c'].take (2 - 1) ++ ['a', 'b', 'c'].drop 2 =
        ['a', 'b', 'c'].eraseIdx (2 - 1) ∧
      (['a', 'b', 'c'].eraseIdx (2 - 1)).length + 1 = ['a', 'b', 'c'].length ∧
      s1.lines.length = [['z'], ['a', 'b', 'c']].length ∧
      (∀ i : Nat, i ≠ 1 → s1.lines[i]? = [['z'], ['a', 'b', 'c']][i]?) ∧
      s1.currentPosition = ⟨1, 2 - 1⟩ :=
  ⟨by decide, by decide, by decide,
    backspace_char_delete
      { initialState with lines := [['z'], ['a', 'b', 'c']], currentPosition := ⟨1, 2⟩ }
      ['a', 'b', 'c'] (by decide) (by decide) (by decide)⟩

/-! ## enter -/

/-- C13. Enter, accepted: with the cursor on an existing line `cur` and
`lines.length < maxLines`, `handleEnter` succeeds, replaces the current line
by `before = cur[0:char]` and inserts `after = cur[char:]` as a new line right
after it, every other line unchanged and the line count one higher, where
`before ++ after = cur`; the cursor moves to `(line + 1, 0)`. -/
theorem enter_accepted (maxLines : Nat) (s : State) (cur : Str)
    (hcur : s.lines[s.currentPosition.line]? = some cur)
    (hm : s.lines.length < maxLines) :
    ∃ s1 e, handleEnter maxLines s = .ok s1 e ∧
      s1.lines = s.lines.take s.currentPosition.line ++
        cur.take s.currentPosition.char :: cur.drop s.currentPosition.char ::
          s.lines.drop (s.currentPosition.line + 1) ∧
      cur.take s.currentPosition.char ++ cur.drop s.currentPosition.char = cur ∧
      s1.lines.length = s.lines.length + 1 ∧
      s1.currentPosition = ⟨s.currentPosition.line + 1, 0⟩ := by
  have hl := lt_length_of_getElem? _ _ _ hcur
  obtain ⟨s1, h1, h2, h3, _⟩ := handleEnter_accepted maxLines s cur hcur hm
  refine ⟨s1, _, h1, h2, List.take_append_drop _ _, ?_, h3⟩
  rw [h2]
  simp only [List.length_append, List.length_cons, List.length_take, List.length_drop]
  omega

/-- Witness for C13: splitting `abc` after the `a`, with a line on each side. -/
theorem enter_accepted_witness :
    (({ initialState with lines := [['z'], ['a', 'b', 'c'], ['y']],
                          currentPosition := ⟨1, 1⟩ } : State).lines[1]? =
      some ['a', 'b', 'c']) ∧ [['z'], ['a', 'b', 'c'], ['y']].length < 16 ∧
    ∃ s1 e, handleEnter 16
        { initialState with lines := [['z'], ['a', 'b', 'c'], ['y']],
                            currentPosition := ⟨1, 1⟩ } = .ok s1 e ∧
      s1.lines = [['z'], ['a', 'b', 'c'], ['y']].take 1 ++
        ['a', 'b', 'c'].take 1 :: ['a', 'b', 'c'].drop 1 ::
          [['z'], ['a', 'b', 'c'], ['y']].drop (1 + 1) ∧
      ['a', 'b', 'c'].take 1 ++ ['a', 'b', 'c'].drop 1 = ['a', 'b', 'c'] ∧
      s1.lines.length = [['z'], ['a', 'b', 'c'], ['y']].length + 1 ∧
      s1.currentPosition = ⟨1 + 1, 0⟩ :=
  ⟨by decide, by decide,
    enter_accepted 16
      { initialState with lines := [['z'], ['a', 'b', 'c'], ['y']],
                          currentPosition := ⟨1, 1⟩ }
      ['a', 'b', 'c'] (by decide) (by decide)⟩

/-- C14. Enter, rejected at the ceiling: when `lines.length ≥ maxLines`,
`handleEnter` succeeds, emits no payload, leaves the line sequence (and so its
length) unchanged, and sets the cursor to the same line at column
`before.length`, where `before` is the current line up to the cursor column
(the empty string when the cursor row does not exist). -/
theorem enter_rejected_at_ceiling (maxLines : Nat) (s : State)
    (hm : maxLines ≤ s.lines.length) :
    ∃ s1, handleEnter maxLines s = .ok s1 none ∧
      s1.lines = s.lines ∧ s1.lines.length = s.lines.length ∧
      s1.currentPosition = ⟨s.currentPosition.line,
        ((lineOrEmpty s.lines s.currentPosition.line).take s.currentPosition.char).length⟩ ∧
      (∀ cur : Str, s.lines[s.currentPosition.line]? = some cur →
        s1.currentPosition =
          ⟨s.currentPosition.line, (cur.take s.currentPosition.char).length⟩) := by
  refine ⟨_, handleEnter_rejected maxLines s hm, rfl, rfl, rfl, ?_⟩
  intro cur hcur
  simp only [lineOrEmpty_of_getElem? _ _ _ hcur]

/-- Witness for C14: a full two-line buffer with `maxLines = 2`. -/
theorem enter_rejected_at_ceiling_witness :
    2 ≤ [['a', 'b'], ['c']].length ∧
    ∃ s1, handleEnter 2
        { initialState with lines := [['a', 'b'], ['c']], currentPosition := ⟨0, 1⟩ } =
          .ok s1 none ∧
      s1.lines = [['a', 'b'], ['c']] ∧ s1.lines.length = [['a', 'b'], ['c']].length ∧
      s1.currentPosition = ⟨0, ((lineOrEmpty [['a', 'b'], ['c']] 0).take 1).length⟩ ∧
      (∀ cur : Str, [['a', 'b'], ['c']][0]? = some cur →
        s1.currentPosition = ⟨0, (cur.take 1).length⟩) :=
  ⟨by decide,
    enter_rejected_at_ceiling 2
      { initialState with lines := [['a', 'b'], ['c']], currentPosition := ⟨0, 1⟩ }
      (by decide)⟩

/-! ## Content-changed events -/

/-- C15. Content-changed emission: in a state with a valid cursor, an accepted
insertChar, a backspace away from `(0,0)` and an accepted enter each succeed
and emit one payload, the post-edit lines joined by the newline; a rejected
insertChar, a backspace at `(0,0)` and a rejected enter emit none. -/
theorem content_changed_emission (maxLines : Nat) (s : State) (c : Char)
    (hv : ValidCursor s) :
    (¬ (CHARS_PER_LINE ≤ s.currentPosition.char ∧ maxLines ≤ s.lines.length) →
      ∃ s1, handleCharacter maxLines s c = .ok s1 (some (flatten s1.lines))) ∧
    (CHARS_PER_LINE ≤ s.currentPosition.char ∧ maxLines ≤ s.lines.length →
      ∃ s1, handleCharacter maxLines s c = .ok s1 none) ∧
    (s.currentPosition ≠ ⟨0, 0⟩ →
      ∃ s1, handleBackspace s = .ok s1 (some (flatten s1.lines))) ∧
    (s.currentPosition = ⟨0, 0⟩ → ∃ s1, handleBackspace s = .ok s1 none) ∧
    (s.lines.length < maxLines →
      ∃ s1, handleEnter maxLines s = .ok s1 (some (flatten s1.lines))) ∧
    (maxLines ≤ s.lines.length → ∃ s1, handleEnter maxLines s = .ok s1 none) := by
  obtain ⟨hl, _⟩ := hv
  have hcur : s.lines[s.currentPosition.line]? = some s.lines[s.currentPosition.line] :=
    List.getElem?_eq_getElem hl
  refine ⟨?_, ?_, ?_, ?_, ?_, ?_⟩
  · intro hcond
    by_cases hc : CHARS_PER_LINE ≤ s.currentPosition.char
    · have hm : s.lines.length < maxLines := by
        by_contra hge
        exact hcond ⟨hc, by omega⟩
      obtain ⟨s1, h1, _⟩ := handleCharacter_break maxLines s c _ hcur hc hm
      exact ⟨s1, h1⟩
    · obtain ⟨s1, h1, _⟩ := handleCharacter_inline maxLines s c _ hcur (by omega)
      exact ⟨s1, h1⟩
  · rintro ⟨hc, hm⟩
    exact ⟨s, handleCharacter_rejected maxLines s c hc hm⟩
  · intro hpos
    by_cases hc : s.currentPosition.char = 0
    · have hline : 0 < s.currentPosition.line := by
        rcases Nat.eq_zero_or_pos s.currentPosition.line with hz | hp
        · exact absurd (show s.currentPosition = ⟨0, 0⟩ by
            cases hp : s.currentPosition with
            | mk l ch =>
              rw [hp] at hc hz
              simp only at hc hz
              rw [hc, hz]) hpos
        · exact hp
      have hprev : s.lines[s.currentPosition.line - 1]? =
          some (s.lines.get ⟨s.currentPosition.line - 1, by omega⟩) :=
        List.getElem?_eq_getElem (by omega)
      obtain ⟨s1, h1, _⟩ := handleBackspace_merge s _ _ hprev hcur hc hline
      exact ⟨s1, h1⟩
    · obtain ⟨s1, h1, _⟩ := handleBackspace_delete s _ hcur (by omega)
      exact ⟨s1, h1⟩
  · intro h0
    refine ⟨s, ?_⟩
    unfold handleBackspace
    simp [h0]
  · intro hm
    obtain ⟨s1, h1, _⟩ := handleEnter_accepted maxLines s _ hcur hm
    exact ⟨s1, h1⟩
  · intro hm
    exact ⟨_, handleEnter_rejected maxLines s hm⟩

/-- Witness for C15: a two-line buffer with the cursor at the start of the
second line and `maxLines = 16`. -/
theorem content_changed_emission_witness :
    ValidCursor { initialState with lines := [['a'], ['b']], currentPosition := ⟨1, 0⟩ } ∧
    (∃ s1, handleCharacter 16
        { initialState with lines := [['a'], ['b']], currentPosition := ⟨1, 0⟩ } 'x' =
      .ok s1 (some (flatten s1.lines))) ∧
    (∃ s1, handleBackspace
        { initialState with lines := [['a'], ['b']], currentPosition := ⟨1, 0⟩ } =
      .ok s1 (some (flatten s1.lines))) ∧
    (∃ s1, handleEnter 16
        { initialState with lines := [['a'], ['b']], currentPosition := ⟨1, 0⟩ } =
      .ok s1 (some (flatten s1.lines))) := by
  have h := content_changed_emission 16
    { initialState with lines := [['a'], ['b']], currentPosition := ⟨1, 0⟩ } 'x' (by decide)
  exact ⟨by decide, h.1 (by decide), h.2.2.1 (by decide), h.2.2.2.2.1 (by decide)⟩

/-! ## Keyboard dispatch -/

/-- C16. Navigation keys are no-ops: for each of ArrowUp, ArrowDown, ArrowLeft,
ArrowRight, Home and End, `handleKeyDown` returns the state it was given
(lines, cursor and carriage offset unchanged) and emits no payload; and for
every key event `handleKeyDown` either returns the state unchanged with no
payload or is exactly one of `handleBackspace`, `handleEnter` and
`handleCharacter`, so a key event moves the cursor only through those. -/
theorem navigation_keys_noop (maxLines : Nat) (isReady : Bool) (s : State) (e : KeyEvent) :
    navigationKeys = ["ArrowUp".toList, "ArrowDown".toList, "ArrowLeft".toList,
      "ArrowRight".toList, "Home".toList, "End".toList] ∧
    (e.key ∈ navigationKeys → handleKeyDown maxLines isReady s e = .ok s none) ∧
    (handleKeyDown maxLines isReady s e = .ok s none ∨
      handleKeyDown maxLines isReady s e = handleBackspace s ∨
      handleKeyDown maxLines isReady s e = handleEnter maxLines s ∨
      ∃ c : Char, handleKeyDown maxLines isReady s e = handleCharacter maxLines s c) := by
  refine ⟨rfl, ?_, ?_⟩
  · intro h
    unfold handleKeyDown
    cases isReady <;> simp [h]
  · unfold handleKeyDown
    cases isReady
    · left; simp
    · simp only [Bool.not_true, Bool.false_eq_true, if_false]
      by_cases hn : e.key ∈ navigationKeys
      · left; simp [hn]
      · by_cases hb : e.key = "Backspace".toList
        · right; left; rw [if_neg hn, if_pos hb]
        · by_cases he : e.key = "Enter".toList
          · right; right; left; rw [if_neg hn, if_neg hb, if_pos he]
          · simp only [hn, hb, he, if_false]
            split
            · split
              · right; right; right; exact ⟨_, rfl⟩
              · left; rfl
            · left; rfl

/-- Witness for C16: ArrowLeft in a two-line buffer with the cursor mid-line. -/
theorem navigation_keys_noop_witness :
    "ArrowLeft".toList ∈ navigationKeys ∧
    handleKeyDown 16 true
        { initialState with lines := [['a', 'b'], ['c']], currentPosition := ⟨0, 1⟩,
                            paperOffset := -15 }
        ⟨"ArrowLeft".toList, false, false, false⟩ =
      .ok { initialState with lines := [['a', 'b'], ['c']], currentPosition := ⟨0, 1⟩,
                              paperOffset := -15 } none :=
  ⟨by decide, (navigation_keys_noop 16 true _ _).2.1 (by decide)⟩

/-- Counterexample for C17: with Ctrl held, the Backspace key is not ignored;
it deletes the character before the cursor and emits the new content. -/
theorem ignored_keys_counterexample :
    (⟨"Backspace".toList, true, false, false⟩ : KeyEvent).ctrlKey = true ∧
    handleKeyDown 16 true { initialState with lines := [['a']], currentPosition := ⟨0, 1⟩ }
        ⟨"Backspace".toList, true, false, false⟩ =
      .ok { initialState with lines := [[]], currentPosition := ⟨0, 0⟩, paperOffset := 0,
                              lastContent := [] } (some []) ∧
    ¬ (∀ (maxLines : Nat) (isReady : Bool) (s : State) (e : KeyEvent),
        (e.ctrlKey = true ∨ e.altKey = true ∨ e.metaKey = true ∨
          (e.key ≠ "Backspace".toList ∧ e.key ≠ "Enter".toList ∧ e.key.length ≠ 1)) →
        ∃ s1, handleKeyDown maxLines isReady s e = .ok s1 none ∧ s1.lines = s.lines ∧
          s1.currentPosition = s.currentPosition) := by
  refine ⟨rfl, by decide, ?_⟩
  intro h
  obtain ⟨s1, h1, _⟩ := h 16 true
    { initialState with lines := [['a']], currentPosition := ⟨0, 1⟩ }
    ⟨"Backspace".toList, true, false, false⟩ (Or.inl rfl)
  have h2 : handleKeyDown 16 true
      { initialState with lines := [['a']], currentPosition := ⟨0, 1⟩ }
      ⟨"Backspace".toList, true, false, false⟩ =
      .ok { initialState with lines := [[]], currentPosition := ⟨0, 0⟩, paperOffset := 0,
                              lastContent := [] } (some []) := by decide
  rw [h2] at h1
  simp at h1

/-- C17, amended. Ignored keys: a key event returns the state unchanged and
emits nothing whenever the key is neither Backspace nor Enter and either
Ctrl, Alt or Meta is held or the key is not a single character. -/
theorem ignored_keys (maxLines : Nat) (isReady : Bool) (s : State) (e : KeyEvent)
    (hb : e.key ≠ "Backspace".toList) (he : e.key ≠ "Enter".toList)
    (h : e.ctrlKey = true ∨ e.altKey = true ∨ e.metaKey = true ∨ e.key.length ≠ 1) :
    handleKeyDown maxLines isReady s e = .ok s none := by
  unfold handleKeyDown
  cases isReady
  · simp
  · simp only [Bool.not_true, Bool.false_eq_true, if_false, hb, he]
    by_cases hn : e.key ∈ navigationKeys
    · simp [hn]
    · simp only [hn, if_false]
      split
      · rename_i c hk
        rcases h with h | h | h | h
        · simp [h]
        · simp [h]
        · simp [h]
        · rw [hk] at h
          simp at h
      · rfl

/-- Witness for the amended C17: Ctrl held with the key `c`. -/
theorem ignored_keys_witness :
    ['c'] ≠ "Backspace".toList ∧ ['c'] ≠ "Enter".toList ∧
    handleKeyDown 16 true { initialState with lines := [['a']], currentPosition := ⟨0, 1⟩ }
        ⟨['c'], true, false, false⟩ =
      .ok { initialState with lines := [['a']], currentPosition := ⟨0, 1⟩ } none :=
  ⟨by decide, by decide,
    ignored_keys 16 true _ ⟨['c'], true, false, false⟩ (by decide) (by decide) (Or.inl rfl)⟩

/-! ## Carriage offset -/

theorem exists_getLast_of_ne_nil (ls : List Str) (h : ls ≠ []) :
    ∃ last, ls.getLast? = some last ∧ last ∈ ls ∧
      getLastLineCharCount ls = last.length := by
  cases hl : ls.getLast? with
  | none => exact absurd (List.getLast?_eq_none_iff.mp hl) h
  | some last =>
    exact ⟨last, rfl, List.mem_of_getLast?_eq_some hl, getLastLineCharCount_of_getLast ls last hl⟩

theorem settled_offset (s1 : State) (hne : s1.lines ≠ [])
    (hoff : s1.paperOffset = -(getLastLineCharCount s1.lines : Int) * CHAR_WIDTH) :
    ∃ last, s1.lines.getLast? = some last ∧
      s1.paperOffset = -(last.length : Int) * CHAR_WIDTH ∧
      ((∀ l ∈ s1.lines, l = []) → s1.paperOffset = 0) := by
  obtain ⟨last, h1, h2, h3⟩ := exists_getLast_of_ne_nil s1.lines hne
  refine ⟨last, h1, by rw [hoff, h3], ?_⟩
  intro hall
  rw [hoff, h3, hall last h2]
  simp

theorem timerFires_single (s1 : State) (target : Int) (h : s1.timers = [target]) :
    (timerFires s1).paperOffset = target ∧ (timerFires s1).isAnimating = false ∧
      (timerFires s1).lines = s1.lines ∧
      (timerFires s1).currentPosition = s1.currentPosition ∧ (timerFires s1).timers = [] := by
  unfold timerFires
  rw [h]
  exact ⟨rfl, rfl, rfl, rfl, rfl⟩

/-- C18, the code at the failing inputs: loading the one-character content
`"a"` leaves the carriage offset at `+10`, where minus the length of the final
line times `CHAR_WIDTH` is `-15`; and loading `"ab\nc"` with `maxLines = 1`
keeps the line `"ab"` and leaves the offset at `+10`, where that value is
`-30`. -/
theorem load_offset_diverges :
    load 16 initialState "a".toList =
      .ok { initialState with lines := ["a".toList], currentPosition := ⟨0, 1⟩,
                              paperOffset := 10, lastContent := "a".toList } none ∧
    -(getLastLineCharCount ["a".toList] : Int) * CHAR_WIDTH = -15 ∧
    load 1 initialState "ab\nc".toList =
      .ok { initialState with lines := ["ab".toList], currentPosition := ⟨0, 2⟩,
                              paperOffset := 10, lastContent := "ab".toList }
        (some "ab".toList) ∧
    -(getLastLineCharCount ["ab".toList] : Int) * CHAR_WIDTH = -30 := by
  refine ⟨by decide, by decide, by decide, by decide⟩

/-- C19. Carriage offset after a non-line-breaking edit: in a state whose
cursor is on an existing line, an in-line insertChar
(`cursor.char < CHARS_PER_LINE`) and a backspace away from `(0,0)` each
succeed and leave the carriage offset at minus the length of the final line
of the resulting buffer times `CHAR_WIDTH`, which is 0 when every line of the
resulting buffer is empty. -/
theorem offset_after_inline_edit (maxLines : Nat) (s : State) (c : Char) (cur : Str)
    (hcur : s.lines[s.currentPosition.line]? = some cur) :
    (s.currentPosition.char < CHARS_PER_LINE →
      ∃ s1 e last, handleCharacter maxLines s c = .ok s1 e ∧
        s1.lines.getLast? = some last ∧
        s1.paperOffset = -(last.length : Int) * CHAR_WIDTH ∧
        ((∀ l ∈ s1.lines, l = []) → s1.paperOffset = 0)) ∧
    (s.currentPosition ≠ ⟨0, 0⟩ →
      ∃ s1 e last, handleBackspace s = .ok s1 e ∧
        s1.lines.getLast? = some last ∧
        s1.paperOffset = -(last.length : Int) * CHAR_WIDTH ∧
        ((∀ l ∈ s1.lines, l = []) → s1.paperOffset = 0)) := by
  have hl := lt_length_of_getElem? _ _ _ hcur
  have hset : ∀ v : Str, s.lines.set s.currentPosition.line v ≠ [] := by
    intro v h
    have := congrArg List.length h
    simp only [List.length_set, List.length_nil] at this
    omega
  constructor
  · intro hc
    obtain ⟨s1, h1, h2, h3, _⟩ := handleCharacter_inline_offset maxLines s c cur hcur hc
    obtain ⟨last, hlast, hoff, hzero⟩ := settled_offset s1 (by rw [h2]; exact hset _) h3
    exact ⟨s1, _, last, h1, hlast, hoff, hzero⟩
  · intro hpos
    by_cases hc : s.currentPosition.char = 0
    · have hline : 0 < s.currentPosition.line := by
        rcases Nat.eq_zero_or_pos s.currentPosition.line with hz | hp
        · exact absurd (show s.currentPosition = ⟨0, 0⟩ by
            cases hp : s.currentPosition with
            | mk l ch =>
              rw [hp] at hc hz
              simp only at hc hz
              rw [hc, hz]) hpos
        · exact hp
      have hprev : s.lines[s.currentPosition.line - 1]? =
          some (s.lines.get ⟨s.currentPosition.line - 1, by omega⟩) :=
        List.getElem?_eq_getElem (by omega)
      obtain ⟨s1, h1, h2, _, h4, _⟩ := handleBackspace_merge s _ cur hprev hcur hc hline
      obtain ⟨last, hlast, hoff, hzero⟩ := settled_offset s1 (by rw [h2]; simp) h4
      exact ⟨s1, _, last, h1, hlast, hoff, hzero⟩
    · obtain ⟨s1, h1, h2, _, h4, _⟩ := handleBackspace_delete s cur hcur (by omega)
      obtain ⟨last, hlast, hoff, hzero⟩ := settled_offset s1 (by rw [h2]; exact hset _) h4
      exact ⟨s1, _, last, h1, hlast, hoff, hzero⟩

/-- Witness for C19: the cursor after the only character of a one-line buffer,
where a backspace empties the document. -/
theorem offset_after_inline_edit_witness :
    (({ initialState with lines := [['a']], currentPosition := ⟨0, 1⟩,
                          paperOffset := -15 } : State).lines[0]? = some ['a']) ∧
    (∃ s1 e last, handleCharacter 16
        { initialState with lines := [['a']], currentPosition := ⟨0, 1⟩, paperOffset := -15 }
        'b' = .ok s1 e ∧
      s1.lines.getLast? = some last ∧
      s1.paperOffset = -(last.length : Int) * CHAR_WIDTH ∧
      ((∀ l ∈ s1.lines, l = []) → s1.paperOffset = 0)) ∧
    (∃ s1 e last, handleBackspace
        { initialState with lines := [['a']], currentPosition := ⟨0, 1⟩, paperOffset := -15 } =
          .ok s1 e ∧
      s1.lines.getLast? = some last ∧
      s1.paperOffset = -(last.length : Int) * CHAR_WIDTH ∧
      ((∀ l ∈ s1.lines, l = []) → s1.paperOffset = 0)) := by
  have h := offset_after_inline_edit 16
    { initialState with lines := [['a']], currentPosition := ⟨0, 1⟩, paperOffset := -15 }
    'b' ['a'] (by decide)
  exact ⟨by decide, h.1 (by decide), h.2 (by decide)⟩

/-- C20. Two-phase carriage return: in a state whose cursor is on an existing
line, with `lines.length < maxLines` and no timer pending, an insertChar at or
past the right edge and an enter each succeed and leave the offset at the
previous offset minus `CHAR_WIDTH` with the animating flag set; when the
animation timer then fires, the offset is minus the length of the final line
of the post-edit buffer times `CHAR_WIDTH`, the flag is cleared, no timer is
left and the buffer is the post-edit buffer. -/
theorem two_phase_carriage_return (maxLines : Nat) (s : State) (c : Char) (cur : Str)
    (hcur : s.lines[s.currentPosition.line]? = some cur)
    (hm : s.lines.length < maxLines) (ht : s.timers = []) :
    (CHARS_PER_LINE ≤ s.currentPosition.char →
      ∃ s1 e last, handleCharacter maxLines s c = .ok s1 e ∧
        s1.paperOffset = s.paperOffset - CHAR_WIDTH ∧ s1.isAnimating = true ∧
        s1.lines.getLast? = some last ∧
        (timerFires s1).paperOffset = -(last.length : Int) * CHAR_WIDTH ∧
        (timerFires s1).isAnimating = false ∧ (timerFires s1).timers = [] ∧
        (timerFires s1).lines = s1.lines) ∧
    (∃ s1 e last, handleEnter maxLines s = .ok s1 e ∧
        s1.paperOffset = s.paperOffset - CHAR_WIDTH ∧ s1.isAnimating = true ∧
        s1.lines.getLast? = some last ∧
        (timerFires s1).paperOffset = -(last.length : Int) * CHAR_WIDTH ∧
        (timerFires s1).isAnimating = false ∧ (timerFires s1).timers = [] ∧
        (timerFires s1).lines = s1.lines) := by
  constructor
  · intro hc
    obtain ⟨s1, h1, h2, h3, h4, h5⟩ := handleCharacter_break_offset maxLines s c cur hcur hc hm
    obtain ⟨last, hlast, _, hcount⟩ := exists_getLast_of_ne_nil s1.lines (by rw [h2]; simp)
    rw [ht, List.nil_append] at h5
    obtain ⟨t1, t2, t3, _, t5⟩ := timerFires_single s1 _ h5
    exact ⟨s1, _, last, h1, h3, h4, hlast, by rw [t1, hcount], t2, t5, t3⟩
  · obtain ⟨s1, h1, h2, _, h3, h4, h5⟩ := handleEnter_accepted maxLines s cur hcur hm
    obtain ⟨last, hlast, _, hcount⟩ := exists_getLast_of_ne_nil s1.lines (by rw [h2]; simp)
    rw [ht, List.nil_append] at h5
    obtain ⟨t1, t2, t3, _, t5⟩ := timerFires_single s1 _ h5
    exact ⟨s1, _, last, h1, h3, h4, hlast, by rw [t1, hcount], t2, t5, t3⟩

/-- Witness for C20: a 38-character line followed by a short line, the cursor
at the right edge of the first. -/
theorem two_phase_carriage_return_witness :
    (({ initialState with lines := [List.replicate 38 'a', ['b', 'c']],
                          currentPosition := ⟨0, 38⟩, paperOffset := -30 } : State).lines[0]? =
      some (List.replicate 38 'a')) ∧
    [List.replicate 38 'a', ['b', 'c']].length < 16 ∧
    (∃ s1 e last, handleCharacter 16
        { initialState with lines := [List.replicate 38 'a', ['b', 'c']],
                            currentPosition := ⟨0, 38⟩, paperOffset := -30 } 'x' = .ok s1 e ∧
        s1.paperOffset = -30 - CHAR_WIDTH ∧ s1.isAnimating = true ∧
        s1.lines.getLast? = some last ∧
        (timerFires s1).paperOffset = -(last.length : Int) * CHAR_WIDTH ∧
        (timerFires s1).isAnimating = false ∧ (timerFires s1).timers = [] ∧
        (timerFires s1).lines = s1.lines) ∧
    (∃ s1 e last, handleEnter 16
        { initialState with lines := [List.replicate 38 'a', ['b', 'c']],
                            currentPosition := ⟨0, 38⟩, paperOffset := -30 } = .ok s1 e ∧
        s1.paperOffset = -30 - CHAR_WIDTH ∧ s1.isAnimating = true ∧
        s1.lines.getLast? = some last ∧
        (timerFires s1).paperOffset = -(last.length : Int) * CHAR_WIDTH ∧
        (timerFires s1).isAnimating = false ∧ (timerFires s1).timers = [] ∧
        (timerFires s1).lines = s1.lines) := by
  have h := two_phase_carriage_return 16
    { initialState with lines := [List.replicate 38 'a', ['b', 'c']],
                        currentPosition := ⟨0, 38⟩, paperOffset := -30 }
    'x' (List.replicate 38 'a') (by decide) (by decide) rfl
  exact ⟨by decide, by decide, h.1 (by decide), h.2⟩

/-! ## Route dispatch -/

namespace Server

theorem getLatestDocument_unreachable (path : Str) (params : List (Str × Str)) :
    dispatch .get path ≠ some (.getLatestDocument, params) := by
  intro h
  unfold dispatch routes at h
  generalize pathSegments path = segs at h
  rcases segs with _ | ⟨a, _ | ⟨b, _ | ⟨c, _ | ⟨d, rest⟩⟩⟩⟩ <;>
    simp [List.findSome?, matchPattern] at h <;>
    split_ifs at h <;> simp_all

/-- C22, the code at the failing input: a GET request for
`/api/documents/latest` matches the earlier route `/api/documents/:id` and is
dispatched to the get-document-by-id handler with `id = "latest"`; its
response is that handler's, so with a store that has no row of that id the
owner gets 404 although a latest document exists; and no GET path at all is
dispatched to the latest-document handler. -/
theorem latest_route_shadowed :
    dispatch .get "/api/documents/latest".toList =
      some (.getDocumentById, [("id".toList, "latest".toList)]) ∧
    (∀ (store : Store) (userId : Nat),
      respond store userId .get "/api/documents/latest".toList =
        some (getDocumentById store userId "latest".toList)) ∧
    respond ⟨fun _ _ => none, fun _ => some ⟨7, "notes".toList, "hello".toList⟩⟩ 1 .get
      "/api/documents/latest".toList = some .notFound ∧
    getLatestDocument ⟨fun _ _ => none, fun _ => some ⟨7, "notes".toList, "hello".toList⟩⟩ 1 =
      .document ⟨7, "notes".toList, "hello".toList⟩ ∧
    (∀ (path : Str) (params : List (Str × Str)),
      dispatch .get path ≠ some (.getLatestDocument, params)) := by
  have hd : dispatch .get "/api/documents/latest".toList =
      some (.getDocumentById, [("id".toList, "latest".toList)]) := by decide
  have hr : ∀ (store : Store) (userId : Nat),
      respond store userId .get "/api/documents/latest".toList =
        some (getDocumentById store userId "latest".toList) := by
    intro store userId
    unfold respond
    rw [hd]
    rfl
  refine ⟨hd, hr, ?_, rfl, getLatestDocument_unreachable⟩
  rw [hr]
  rfl

end Server

/-! ## enter and backspace together -/

theorem take_cons_drop (ls : List Str) (i : Nat) (cur : Str) (h : ls[i]? = some cur) :
    ls.take i ++ cur :: ls.drop (i + 1) = ls := by
  induction ls generalizing i with
  | nil => simp at h
  | cons a t ih =>
    cases i with
    | zero =>
      simp only [List.getElem?_cons_zero, Option.some.injEq] at h
      simp [h]
    | succ k =>
      simp only [List.getElem?_cons_succ] at h
      simp [ih k h]

theorem split_pair_facts (pre rest : List Str) (b a : Str) :
    (pre ++ b :: a :: rest)[pre.length]? = some b ∧
    (pre ++ b :: a :: rest)[pre.length + 1]? = some a ∧
    (pre ++ b :: a :: rest).take pre.length = pre ∧
    (pre ++ b :: a :: rest).drop (pre.length + 1 + 1) = rest := by
  induction pre with
  | nil => simp
  | cons p t ih =>
    obtain ⟨h1, h2, _, _⟩ := ih
    refine ⟨?_, ?_, ?_, ?_⟩
    · simpa using h1
    · simpa using h2
    · simp
    · simp

/-- C23. Enter at the ceiling is a complete no-op on valid states: when the
cursor is on an existing line at a column within it and
`lines.length ≥ maxLines`, `handleEnter` returns the state it was given
(lines, cursor, carriage offset and everything else identical) and emits
nothing, the clamped column `before.length` being the cursor column. -/
theorem enter_at_ceiling_noop (maxLines : Nat) (s : State) (cur : Str)
    (hcur : s.lines[s.currentPosition.line]? = some cur)
    (hch : s.currentPosition.char ≤ cur.length) (hm : maxLines ≤ s.lines.length) :
    handleEnter maxLines s = .ok s none ∧
      (cur.take s.currentPosition.char).length = s.currentPosition.char := by
  have hlen : (cur.take s.currentPosition.char).length = s.currentPosition.char := by
    rw [List.length_take]
    exact Nat.min_eq_left hch
  refine ⟨?_, hlen⟩
  rw [handleEnter_rejected maxLines s hm, lineOrEmpty_of_getElem? _ _ _ hcur, hlen]

/-- Witness for C23: a full two-line buffer, the cursor inside the first line. -/
theorem enter_at_ceiling_noop_witness :
    (({ initialState with lines := [['a', 'b'], ['c']], currentPosition := ⟨0, 1⟩,
                          paperOffset := -15 } : State).lines[0]? = some ['a', 'b']) ∧
    1 ≤ ['a', 'b'].length ∧ 2 ≤ [['a', 'b'], ['c']].length ∧
    handleEnter 2
        { initialState with lines := [['a', 'b'], ['c']], currentPosition := ⟨0, 1⟩,
                            paperOffset := -15 } =
      .ok { initialState with lines := [['a', 'b'], ['c']], currentPosition := ⟨0, 1⟩,
                              paperOffset := -15 } none ∧
    (['a', 'b'].take 1).length = 1 :=
  ⟨by decide, by decide, by decide,
    enter_at_ceiling_noop 2
      { initialState with lines := [['a', 'b'], ['c']], currentPosition := ⟨0, 1⟩,
                          paperOffset := -15 }
      ['a', 'b'] (by decide) (by decide) (by decide)⟩

/-- C24. Backspace undoes enter: when the cursor is on an existing line at a
column within it and `lines.length < maxLines`, `handleEnter` succeeds, and
`handleBackspace` applied to the state it leaves succeeds and gives back
exactly the original line sequence and the original cursor position. -/
theorem backspace_undoes_enter (maxLines : Nat) (s : State) (cur : Str)
    (hcur : s.lines[s.currentPosition.line]? = some cur)
    (hch : s.currentPosition.char ≤ cur.length) (hm : s.lines.length < maxLines) :
    ∃ s1 e1 s2 e2, handleEnter maxLines s = .ok s1 e1 ∧ handleBackspace s1 = .ok s2 e2 ∧
      s2.lines = s.lines ∧ s2.currentPosition = s.currentPosition := by
  have hl := lt_length_of_getElem? _ _ _ hcur
  obtain ⟨s1, h1, h2, h3, _⟩ := handleEnter_accepted maxLines s cur hcur hm
  have htake : (s.lines.take s.currentPosition.line).length = s.currentPosition.line := by
    rw [List.length_take]; omega
  obtain ⟨f1, f2, f3, f4⟩ := split_pair_facts (s.lines.take s.currentPosition.line)
    (s.lines.drop (s.currentPosition.line + 1)) (cur.take s.currentPosition.char)
    (cur.drop s.currentPosition.char)
  rw [htake, ← h2] at f1 f2 f3 f4
  have hline1 : s1.currentPosition.line = s.currentPosition.line + 1 := by rw [h3]
  have hchar1 : s1.currentPosition.char = 0 := by rw [h3]
  obtain ⟨s2, g1, g2, g3, _⟩ := handleBackspace_merge s1 (cur.take s.currentPosition.char)
    (cur.drop s.currentPosition.char)
    (by rw [hline1, Nat.add_sub_cancel]; exact f1) (by rw [hline1]; exact f2) hchar1
    (by rw [hline1]; omega)
  refine ⟨s1, _, s2, _, h1, g1, ?_, ?_⟩
  · rw [g2, hline1, Nat.add_sub_cancel, f3, f4, List.take_append_drop]
    exact take_cons_drop _ _ _ hcur
  · rw [g3, hline1, Nat.add_sub_cancel, List.length_take, Nat.min_eq_left hch]

/-- Witness for C24: splitting `abc` after the `a` and merging it back. -/
theorem backspace_undoes_enter_witness :
    (({ initialState with lines := [['z'], ['a', 'b', 'c'], ['y']],
                          currentPosition := ⟨1, 1⟩ } : State).lines[1]? =
      some ['a', 'b', 'c']) ∧
    1 ≤ ['a', 'b', 'c'].length ∧ [['z'], ['a', 'b', 'c'], ['y']].length < 16 ∧
    ∃ s1 e1 s2 e2, handleEnter 16
        { initialState with lines := [['z'], ['a', 'b', 'c'], ['y']],
                            currentPosition := ⟨1, 1⟩ } = .ok s1 e1 ∧
      handleBackspace s1 = .ok s2 e2 ∧
      s2.lines = [['z'], ['a', 'b', 'c'], ['y']] ∧ s2.currentPosition = ⟨1, 1⟩ :=
  ⟨by decide, by decide, by decide,
    backspace_undoes_enter 16
      { initialState with lines := [['z'], ['a', 'b', 'c'], ['y']],
                          currentPosition := ⟨1, 1⟩ }
      ['a', 'b', 'c'] (by decide) (by decide) (by decide)⟩

/-! ## Edits while a timer is pending -/

theorem offsetSettles_of_set (s1 : State) (ht : s1.timers = [])
    (hoff : s1.paperOffset = -(getLastLineCharCount s1.lines : Int) * CHAR_WIDTH) :
    OffsetSettles s1 := by
  refine ⟨fun _ => hoff, ?_⟩
  intro t h
  rw [ht] at h
  simp at h

theorem offsetSettles_of_scheduled (s1 : State) (older : List Int)
    (ht : s1.timers = older ++ [-(getLastLineCharCount s1.lines : Int) * CHAR_WIDTH]) :
    OffsetSettles s1 := by
  refine ⟨?_, ?_⟩
  · intro h
    rw [ht] at h
    simp at h
  · intro t h
    rw [ht, List.getLast?_concat] at h
    exact (Option.some.inj h).symm

theorem timerFires_settles (s : State) (hS : OffsetSettles s) : OffsetSettles (timerFires s) := by
  unfold timerFires
  cases ht : s.timers with
  | nil => simpa using hS
  | cons t rest =>
    simp only
    refine ⟨?_, ?_⟩
    · intro hrest
      simp only at hrest
      apply hS.2 t
      rw [ht, hrest]
      rfl
    · intro u hu
      simp only at hu
      apply hS.2 u
      rw [ht]
      cases rest with
      | nil => simp at hu
      | cons r rs => simpa [List.getLast?_cons_cons] using hu

theorem timerFires_invariant (maxLines : Nat) (s : State) (h : Invariant maxLines s) :
    Invariant maxLines (timerFires s) := by
  unfold timerFires
  cases s.timers with
  | nil => exact h
  | cons t rest => exact h

theorem position_eq_origin (p : Position) (hc : p.char = 0) (hl : p.line = 0) : p = ⟨0, 0⟩ := by
  cases p
  simp only at hc hl
  rw [hc, hl]

theorem backspace_origin_eq (s : State) (h : s.currentPosition = ⟨0, 0⟩) :
    handleBackspace s = .ok s none := by
  unfold handleBackspace
  simp [h]

theorem tick_settles (maxLines : Nat) (s : State) (t : Tick)
    (hI : Invariant maxLines s) (hS : OffsetSettles s)
    (hq : setsOffsetDirectly s t = true → s.timers = []) :
    ∃ s1 e, tick maxLines s t = .ok s1 e ∧ Invariant maxLines s1 ∧ OffsetSettles s1 := by
  have hl : s.currentPosition.line < s.lines.length := hI.2.2.1
  have hcur : s.lines[s.currentPosition.line]? = some s.lines[s.currentPosition.line] :=
    List.getElem?_eq_getElem hl
  cases t with
  | insertChar c =>
    obtain ⟨s0, e0, hr, hinv⟩ := handleCharacter_invariant maxLines s c hI
    refine ⟨s0, e0, hr, hinv, ?_⟩
    by_cases hc : s.currentPosition.char < CHARS_PER_LINE
    · obtain ⟨s1, h1, _, h3, _, h5⟩ := handleCharacter_inline_offset maxLines s c _ hcur hc
      rw [h1, Outcome.ok.injEq] at hr
      rw [← hr.1]
      exact offsetSettles_of_set s1 (by rw [h5]; exact hq (by simp [setsOffsetDirectly, hc])) h3
    · by_cases hm : s.lines.length < maxLines
      · obtain ⟨s1, h1, _, _, _, h5⟩ :=
          handleCharacter_break_offset maxLines s c _ hcur (by omega) hm
        rw [h1, Outcome.ok.injEq] at hr
        rw [← hr.1]
        exact offsetSettles_of_scheduled s1 s.timers h5
      · rw [handleCharacter_rejected maxLines s c (by omega) (by omega), Outcome.ok.injEq] at hr
        rw [← hr.1]
        exact hS
  | backspace =>
    obtain ⟨s0, e0, hr, hinv⟩ := handleBackspace_invariant maxLines s hI
    refine ⟨s0, e0, hr, hinv, ?_⟩
    by_cases hc : s.currentPosition.char = 0
    · by_cases hline : s.currentPosition.line = 0
      · rw [backspace_origin_eq s (position_eq_origin _ hc hline), Outcome.ok.injEq] at hr
        rw [← hr.1]
        exact hS
      · have hne : s.currentPosition ≠ ⟨0, 0⟩ := by
          intro h
          rw [h] at hline
          exact hline rfl
        have hprev : s.lines[s.currentPosition.line - 1]? =
            some (s.lines.get ⟨s.currentPosition.line - 1, by omega⟩) :=
          List.getElem?_eq_getElem (by omega)
        obtain ⟨s1, h1, _, _, h4, _, h6⟩ :=
          handleBackspace_merge s _ _ hprev hcur hc (by omega)
        rw [h1, Outcome.ok.injEq] at hr
        rw [← hr.1]
        exact offsetSettles_of_set s1
          (by rw [h6]; exact hq (by simp [setsOffsetDirectly, hne])) h4
    · have hne : s.currentPosition ≠ ⟨0, 0⟩ := by
        intro h
        rw [h] at hc
        exact hc rfl
      obtain ⟨s1, h1, _, _, h4, _, h6⟩ := handleBackspace_delete s _ hcur (by omega)
      rw [h1, Outcome.ok.injEq] at hr
      rw [← hr.1]
      exact offsetSettles_of_set s1
        (by rw [h6]; exact hq (by simp [setsOffsetDirectly, hne])) h4
  | enter =>
    obtain ⟨s0, e0, hr, hinv⟩ := handleEnter_invariant maxLines s hI
    refine ⟨s0, e0, hr, hinv, ?_⟩
    by_cases hm : s.lines.length < maxLines
    · obtain ⟨s1, h1, _, _, _, _, h6⟩ := handleEnter_accepted maxLines s _ hcur hm
      rw [h1, Outcome.ok.injEq] at hr
      rw [← hr.1]
      exact offsetSettles_of_scheduled s1 s.timers h6
    · rw [handleEnter_rejected maxLines s (by omega), Outcome.ok.injEq] at hr
      rw [← hr.1]
      exact hS
  | timer =>
    exact ⟨_, _, rfl, timerFires_invariant maxLines s hI, timerFires_settles s hS⟩

theorem play_settles (maxLines : Nat) (ts : List Tick) :
    ∀ s : State, Invariant maxLines s → OffsetSettles s →
      noDirectWriteWhilePending maxLines s ts = true →
      ∃ s1 es, play maxLines s ts = .ok s1 es ∧ Invariant maxLines s1 ∧ OffsetSettles s1 := by
  induction ts with
  | nil => intro s hI hS _; exact ⟨s, [], rfl, hI, hS⟩
  | cons t ts ih =>
    intro s hI hS hq
    simp only [noDirectWriteWhilePending, Bool.and_eq_true, Bool.or_eq_true,
      Bool.not_eq_true', decide_eq_true_eq] at hq
    obtain ⟨hq1, hq2⟩ := hq
    have hguard : setsOffsetDirectly s t = true → s.timers = [] := by
      intro h
      rcases hq1 with h0 | h0
      · rw [h] at h0
        exact absurd h0 (by decide)
      · exact h0
    obtain ⟨s1, e, h1, hI1, hS1⟩ := tick_settles maxLines s t hI hS hguard
    rw [h1] at hq2
    obtain ⟨s2, es, h2, hI2, hS2⟩ := ih s1 hI1 hS1 hq2
    refine ⟨s2, e :: es, ?_, hI2, hS2⟩
    simp only [play, h1, h2]

theorem initialState_settles : OffsetSettles initialState := by
  refine ⟨fun _ => by decide, ?_⟩
  intro t h
  simp [initialState] at h

/-- Counterexample for C21: an enter schedules a timer with target 0; the
character typed before that timer fires sets the offset to `-15`; the timer
then fires and puts the offset back to 0 although the final line `"b"` has
one character.  No timer is pending in that state. -/
theorem last_edit_wins_counterexample :
    play 16 initialState [.enter, .insertChar 'b', .timer] =
      .ok { initialState with lines := [[], ['b']], currentPosition := ⟨1, 1⟩,
                              paperOffset := 0, timers := [],
                              lastContent := ['\n', 'b'] }
        [some ['\n'], some ['\n', 'b'], none] ∧
    (0 : Int) ≠ -(getLastLineCharCount [[], ['b']] : Int) * CHAR_WIDTH ∧
    ¬ (∀ (maxLines : Nat) (ts : List Tick) (s : State) (es : List (Option Str)),
        play maxLines initialState ts = .ok s es → s.timers = [] →
        s.paperOffset = -(getLastLineCharCount s.lines : Int) * CHAR_WIDTH) := by
  have hplay : play 16 initialState [.enter, .insertChar 'b', .timer] =
      .ok { initialState with lines := [[], ['b']], currentPosition := ⟨1, 1⟩,
                              paperOffset := 0, timers := [],
                              lastContent := ['\n', 'b'] }
        [some ['\n'], some ['\n', 'b'], none] := by decide
  refine ⟨hplay, by decide, ?_⟩
  intro h
  have := h 16 _ _ _ hplay rfl
  revert this
  decide

/-- C21, amended. A pending timer is never cancelled, so the claim holds for
the runs in which no edit that writes the offset directly (an in-line
insertChar, a deleting backspace) is made while a timer is pending: with
`maxLines ≥ 1`, every such run of edits and timer firings from the initial
state completes, and when no timer is pending at its end the offset is minus
the length of the final line times `CHAR_WIDTH`. -/
theorem offset_settles_when_no_direct_write_while_pending (maxLines : Nat) (hm : 1 ≤ maxLines)
    (ts : List Tick) (hq : noDirectWriteWhilePending maxLines initialState ts = true) :
    ∃ s es, play maxLines initialState ts = .ok s es ∧
      (s.timers = [] →
        ∃ last, s.lines.getLast? = some last ∧
          s.paperOffset = -(last.length : Int) * CHAR_WIDTH) := by
  obtain ⟨s, es, hp, hI, hS⟩ := play_settles maxLines ts initialState
    (initialState_invariant maxLines hm) initialState_settles hq
  refine ⟨s, es, hp, ?_⟩
  intro ht
  have hne : s.lines ≠ [] := by
    intro h
    have h1 := hI.1
    rw [h] at h1
    simp at h1
  obtain ⟨last, h1, _, h3⟩ := exists_getLast_of_ne_nil s.lines hne
  exact ⟨last, h1, by rw [hS.1 ht, h3]⟩

/-- Witness for the amended C21: two enters made back to back, both timers
fired, then a character typed and deleted. -/
theorem offset_settles_when_no_direct_write_while_pending_witness :
    1 ≤ 16 ∧
    noDirectWriteWhilePending 16 initialState
      [.insertChar 'a', .enter, .enter, .timer, .timer, .insertChar 'b', .backspace] = true ∧
    ∃ s es, play 16 initialState
        [.insertChar 'a', .enter, .enter, .timer, .timer, .insertChar 'b', .backspace] =
          .ok s es ∧
      (s.timers = [] →
        ∃ last, s.lines.getLast? = some last ∧
          s.paperOffset = -(last.length : Int) * CHAR_WIDTH) :=
  ⟨by decide, by decide,
    offset_settles_when_no_direct_write_while_pending 16 (by decide) _ (by decide)⟩

/-! ## Capacity of the document -/

theorem typing_within_capacity (maxLines : Nat) (typed : Str)
    (h : typed.length ≤ capacity maxLines) :
    ∃ s es pre last, run maxLines initialState (typed.map Op.insertChar) = .ok s es ∧
      AtEnd s pre last ∧
      pre.length = typed.length / (CHARS_PER_LINE + 1) ∧
      last.length = typed.length % (CHARS_PER_LINE + 1) ∧
      (∀ l ∈ pre, l.length = CHARS_PER_LINE + 1) ∧
      es.length = typed.length ∧ (∀ e ∈ es, e.isSome = true) := by
  induction typed using List.reverseRecOn with
  | nil =>
    refine ⟨initialState, [], [], [], rfl, ⟨rfl, rfl⟩, rfl, rfl, ?_, rfl, ?_⟩
    · intro l hl; simp at hl
    · intro e he; simp at he
  | append_singleton cs c ih =>
    have hlen : cs.length + 1 ≤ capacity maxLines := by
      simpa using h
    obtain ⟨s, es, pre, last, hr, hA, hpre, hlast, hall, hes, hsome⟩ := ih (by omega)
    rw [List.map_append, List.map_singleton]
    simp only [capacity, CHARS_PER_LINE] at hlen
    simp only [CHARS_PER_LINE] at hpre hlast hall ⊢
    by_cases hc : last.length < CHARS_PER_LINE
    · obtain ⟨s1, h1, hA1⟩ := handleCharacter_atEnd_inline maxLines s c pre last hA hc
      refine ⟨s1, es ++ [some (flatten s1.lines)], pre, last ++ [c],
        run_append maxLines _ _ _ _ _ _ _ hr (run_singleton maxLines _ _ _ _ h1), hA1,
        ?_, ?_, hall, ?_, ?_⟩
      · simp only [List.length_append, List.length_singleton, CHARS_PER_LINE] at hc ⊢
        omega
      · simp only [List.length_append, List.length_singleton, CHARS_PER_LINE] at hc ⊢
        omega
      · simp [hes]
      · intro e he
        rcases List.mem_append.mp he with he | he
        · exact hsome e he
        · simp only [List.mem_singleton] at he
          rw [he]
          rfl
    · simp only [CHARS_PER_LINE] at hc
      have hm : pre.length + 1 < maxLines := by omega
      obtain ⟨s1, h1, hA1⟩ := handleCharacter_atEnd_break maxLines s c pre last hA
        (by simp only [CHARS_PER_LINE]; omega) hm
      refine ⟨s1, es ++ [some (flatten s1.lines)], pre ++ [last ++ [c]], [],
        run_append maxLines _ _ _ _ _ _ _ hr (run_singleton maxLines _ _ _ _ h1), hA1,
        ?_, ?_, ?_, ?_, ?_⟩
      · simp only [List.length_append, List.length_singleton]
        omega
      · simp only [List.length_append, List.length_singleton, List.length_nil]
        omega
      · intro l hl
        rcases List.mem_append.mp hl with hl | hl
        · exact hall l hl
        · simp only [List.mem_singleton] at hl
          rw [hl]
          simp only [List.length_append, List.length_singleton]
          omega
      · simp [hes]
      · intro e he
        rcases List.mem_append.mp he with he | he
        · exact hsome e he
        · simp only [List.mem_singleton] at he
          rw [he]
          rfl

theorem run_all_rejected (maxLines : Nat) (s : State) (pre : List Str) (last : Str)
    (hA : AtEnd s pre last) (hc : CHARS_PER_LINE ≤ last.length)
    (hm : maxLines ≤ pre.length + 1) (cs : Str) :
    run maxLines s (cs.map Op.insertChar) = .ok s (List.replicate cs.length none) := by
  induction cs with
  | nil => rfl
  | cons c cs ih =>
    have h1 := handleCharacter_atEnd_rejected maxLines s c pre last hA hc hm
    simp only [List.map_cons, run, step, h1, ih, List.length_cons, List.replicate_succ]

theorem accepted_then_rejected (es1 : List (Option Str)) (r k : Nat)
    (hall : ∀ e ∈ es1, e.isSome = true) :
    (k < es1.length → ∃ content, (es1 ++ List.replicate r none)[k]? = some (some content)) ∧
    (es1.length ≤ k → k < es1.length + r →
      (es1 ++ List.replicate r none)[k]? = some none) := by
  constructor
  · intro hk
    rw [List.getElem?_append_left hk, List.getElem?_eq_getElem hk]
    have hmem : es1[k] ∈ es1 := List.getElem_mem hk
    have hs := hall _ hmem
    cases he : es1[k] with
    | none => rw [he] at hs; simp at hs
    | some content => exact ⟨content, rfl⟩
  · intro hk hr
    rw [List.getElem?_append_right hk, List.getElem?_replicate]
    simp only [ite_eq_left_iff, not_lt, reduceCtorEq, imp_false, not_le]
    omega

/-- C25. Document capacity: with `maxLines ≥ 1`, typing any characters with
insertChar into the initial empty buffer runs to completion; the `k`-th
insert emits its payload (is accepted) exactly when
`k ≤ (maxLines - 1) * (CHARS_PER_LINE + 1) + CHARS_PER_LINE`, which is 623 for
`maxLines = 16`; every later insert emits nothing, and once that many
characters have been typed the buffer holds `maxLines - 1` lines of 39
characters followed by one line of 38. -/
theorem document_capacity (maxLines : Nat) (hm : 1 ≤ maxLines) (typed : Str) :
    ∃ s es, run maxLines initialState (typed.map Op.insertChar) = .ok s es ∧
      es.length = typed.length ∧
      (∀ k : Nat, k < typed.length →
        ((∃ content, es[k]? = some (some content)) ↔ k + 1 ≤ capacity maxLines)) ∧
      (∀ k : Nat, k < typed.length → capacity maxLines < k + 1 → es[k]? = some none) ∧
      (capacity maxLines ≤ typed.length →
        ∃ pre last, s.lines = pre ++ [last] ∧ pre.length = maxLines - 1 ∧
          (∀ l ∈ pre, l.length = 39) ∧ last.length = 38) ∧
      capacity 16 = 623 := by
  have hsplit : typed = typed.take (capacity maxLines) ++ typed.drop (capacity maxLines) :=
    (List.take_append_drop _ _).symm
  have htake : (typed.take (capacity maxLines)).length ≤ capacity maxLines := by
    rw [List.length_take]; exact Nat.min_le_left _ _
  obtain ⟨s, es1, pre, last, hr, hA, hpre, hlast, hall, hes, hsome⟩ :=
    typing_within_capacity maxLines (typed.take (capacity maxLines)) htake
  by_cases hn : typed.length ≤ capacity maxLines
  · have hall_typed : typed.take (capacity maxLines) = typed := List.take_of_length_le hn
    rw [hall_typed] at hr hpre hlast hes
    have hpt := fun k => accepted_then_rejected es1 0 k hsome
    simp only [List.replicate_zero, List.append_nil] at hpt
    refine ⟨s, es1, hr, hes, ?_, ?_, ?_, by decide⟩
    · intro k hk
      constructor
      · intro _; omega
      · intro _; exact (hpt k).1 (by omega)
    · intro k hk hcap; omega
    · intro hge
      have heq : typed.length = capacity maxLines := by omega
      refine ⟨pre, last, hA.1, ?_, ?_, ?_⟩
      · rw [hpre, heq]
        simp only [capacity, CHARS_PER_LINE]
        omega
      · intro l hl
        have := hall l hl
        simpa [CHARS_PER_LINE] using this
      · rw [hlast, heq]
        simp only [capacity, CHARS_PER_LINE]
        omega
  · have hcap : (typed.take (capacity maxLines)).length = capacity maxLines := by
      rw [List.length_take]; omega
    rw [hcap] at hpre hlast hes
    have hpre1 : pre.length = maxLines - 1 := by
      rw [hpre]
      simp only [capacity, CHARS_PER_LINE]
      omega
    have hlast1 : last.length = 38 := by
      rw [hlast]
      simp only [capacity, CHARS_PER_LINE]
      omega
    have hrej := run_all_rejected maxLines s pre last hA
      (by rw [hlast1]; decide) (by omega) (typed.drop (capacity maxLines))
    have hrun := run_append maxLines _ _ _ _ _ _ _ hr hrej
    rw [← List.map_append, ← hsplit] at hrun
    have hdrop : (typed.drop (capacity maxLines)).length = typed.length - capacity maxLines :=
      List.length_drop _ _
    have hpt := fun k => accepted_then_rejected es1
      (typed.drop (capacity maxLines)).length k hsome
    refine ⟨s, _, hrun, ?_, ?_, ?_, ?_, by decide⟩
    · simp only [List.length_append, List.length_replicate, hes, hdrop]
      omega
    · intro k hk
      constructor
      · rintro ⟨content, hc⟩
        by_contra hgt
        have := (hpt k).2 (by omega) (by omega)
        rw [this] at hc
        simp at hc
      · intro hle
        exact (hpt k).1 (by omega)
    · intro k hk hgt
      exact (hpt k).2 (by omega) (by omega)
    · intro _
      refine ⟨pre, last, hA.1, hpre1, ?_, hlast1⟩
      intro l hl
      have := hall l hl
      simpa [CHARS_PER_LINE] using this

/-- Witness for C25: `maxLines = 2`, where 77 characters fit. -/
theorem document_capacity_witness :
    1 ≤ 2 ∧ capacity 2 = 77 ∧
    ∃ s es, run 2 initialState ((List.replicate 80 'a').map Op.insertChar) = .ok s es ∧
      es.length = (List.replicate 80 'a').length ∧
      (∀ k : Nat, k < (List.replicate 80 'a').length →
        ((∃ content, es[k]? = some (some content)) ↔ k + 1 ≤ capacity 2)) ∧
      (∀ k : Nat, k < (List.replicate 80 'a').length → capacity 2 < k + 1 →
        es[k]? = some none) ∧
      (capacity 2 ≤ (List.replicate 80 'a').length →
        ∃ pre last, s.lines = pre ++ [last] ∧ pre.length = 2 - 1 ∧
          (∀ l ∈ pre, l.length = 39) ∧ last.length = 38) ∧
      capacity 16 = 623 :=
  ⟨by decide, by decide, document_capacity 2 (by decide) _⟩

end TypewriterEditor
